import Mathlib

/-!
# Shallow embedding of the TransactionProcessing core

Embedding of the repository's three core components, translated from the
source files:

* `src/client_state.rs` / `src/client_state_mgr.rs` — the account ledger
  (`ClientState`, `ClientsStatesMgr` and its five balance operations);
* `src/transaction_mgr.rs` — the transaction journal (`TransactionMgr`);
* `src/transaction_processor.rs` — the router (`TransactionsProcessor`).

Modelling decisions:

* Money amounts (`f32` in the source) are modelled as exact integers `Int`
  (minor currency units).  The spec's design notes single out the binary
  floating point representation as an implementation accident and prescribe a
  minor-unit integer fixed point representation as the intended semantics;
  every claim under study is about the exact algebra of `+`, `-`, `≤`, which
  this model captures.
* `u16`/`u32` identifiers are modelled as `Nat` (no arithmetic is ever
  performed on them).
* `HashMap` is modelled as an association list with at most one binding per
  key as maintained by the operations; `alookup` models `get`, `aupdate`
  models in-place mutation through `get_mut`, and appending models `insert`
  on a vacant key.
* The `Option::unwrap` on a journal record's amount in the dispute, resolve
  and chargeback handlers is not guarded in the handler itself, so those
  handlers return `Option (Sys × Bool)` with `none` modelling the panic;
  every other `unwrap` in the source is dominated by an `is_none` early
  return in the same function and is modelled by the corresponding `match`.
-/

/-- Supported transaction types (src/transaction_details.rs, `TransactionType`). -/
inductive TransactionType where
  | Deposit
  | Withdrawal
  | Dispute
  | Resolve
  | Chargeback
  | Unknown
deriving DecidableEq

/-- Base transaction details (src/transaction_details.rs, `TransactionDetails`). -/
structure TransactionDetails where
  transaction_type : TransactionType
  client : Nat
  tx : Nat
  amount : Option Int
deriving DecidableEq

/-- Current client state (src/client_state.rs, `ClientState`). -/
structure ClientState where
  client : Nat
  available : Int
  held : Int
  total : Int
  locked : Bool
deriving DecidableEq

/-- Association-list lookup: models `HashMap::get` / `HashMap::get_mut`. -/
def alookup {α : Type} : List (Nat × α) → Nat → Option α
  | [], _ => none
  | (k, v) :: rest, i => if k = i then some v else alookup rest i

/-- Replace the binding at key `i` by `f` of its value (mutation through
`HashMap::get_mut`); a map without the key is left unchanged. -/
def aupdate {α : Type} (f : α → α) : List (Nat × α) → Nat → List (Nat × α)
  | [], _ => []
  | (k, v) :: rest, i =>
    if k = i then (k, f v) :: rest else (k, v) :: aupdate f rest i

/-- The ledger's client map (src/client_state_mgr.rs, `ClientsStatesMgr.clients_states`). -/
abbrev ClientsStatesMgr := List (Nat × ClientState)

/-- src/client_state_mgr.rs, `get_client_details`: plain lookup — the lock
filter in the source is commented out, locked accounts may still be acted on. -/
def ClientsStatesMgr.get_client_details (m : ClientsStatesMgr) (client_id : Nat) :
    Option ClientState :=
  alookup m client_id

/-- src/client_state_mgr.rs, `apply_deposit`: `entry(client_id).or_insert(zero)`
then `available += amount; total += amount`; always returns `true`. -/
def ClientsStatesMgr.apply_deposit (m : ClientsStatesMgr) (client_id : Nat)
    (amount : Int) : ClientsStatesMgr × Bool :=
  let m1 := match alookup m client_id with
    | some _ => m
    | none => m ++ [(client_id, ⟨client_id, 0, 0, 0, false⟩)]
  (aupdate (fun d => { d with available := d.available + amount,
                              total := d.total + amount }) m1 client_id, true)

/-- src/client_state_mgr.rs, `apply_withdrawal`: `get_client_details` filtered by
`available >= amount`; on success `available -= amount; total -= amount`. -/
def ClientsStatesMgr.apply_withdrawal (m : ClientsStatesMgr) (client_id : Nat)
    (amount : Int) : ClientsStatesMgr × Bool :=
  match ClientsStatesMgr.get_client_details m client_id with
  | none => (m, false)
  | some d =>
    if amount ≤ d.available then
      (aupdate (fun d => { d with available := d.available - amount,
                                  total := d.total - amount }) m client_id, true)
    else (m, false)

/-- src/client_state_mgr.rs, `apply_dispute`: `get_client_details` filtered by
`available >= amount`; on success `available -= amount; held += amount`. -/
def ClientsStatesMgr.apply_dispute (m : ClientsStatesMgr) (client_id : Nat)
    (amount : Int) : ClientsStatesMgr × Bool :=
  match ClientsStatesMgr.get_client_details m client_id with
  | none => (m, false)
  | some d =>
    if amount ≤ d.available then
      (aupdate (fun d => { d with available := d.available - amount,
                                  held := d.held + amount }) m client_id, true)
    else (m, false)

/-- src/client_state_mgr.rs, `apply_resolve`: `get_client_details` filtered by
`held >= amount`; on success `available += amount; held -= amount`. -/
def ClientsStatesMgr.apply_resolve (m : ClientsStatesMgr) (client_id : Nat)
    (amount : Int) : ClientsStatesMgr × Bool :=
  match ClientsStatesMgr.get_client_details m client_id with
  | none => (m, false)
  | some d =>
    if amount ≤ d.held then
      (aupdate (fun d => { d with available := d.available + amount,
                                  held := d.held - amount }) m client_id, true)
    else (m, false)

/-- src/client_state_mgr.rs, `apply_chargeback`: `get_client_details` filtered by
`held >= amount`; on success `total -= amount; held -= amount; locked = true`. -/
def ClientsStatesMgr.apply_chargeback (m : ClientsStatesMgr) (client_id : Nat)
    (amount : Int) : ClientsStatesMgr × Bool :=
  match ClientsStatesMgr.get_client_details m client_id with
  | none => (m, false)
  | some d =>
    if amount ≤ d.held then
      (aupdate (fun d => { d with total := d.total - amount,
                                  held := d.held - amount,
                                  locked := true }) m client_id, true)
    else (m, false)

/-- The journal's id-to-details map (src/transaction_mgr.rs, `TransactionMgr.id_to_details`). -/
abbrev TransactionMgr := List (Nat × TransactionDetails)

/-- src/transaction_mgr.rs, `transaction_exist`: `contains_key`. -/
def TransactionMgr.transaction_exist (j : TransactionMgr) (id : Nat) : Bool :=
  (alookup j id).isSome

/-- src/transaction_mgr.rs, `insert_new_transaction`: rejects a kind other than
deposit/withdrawal, an absent or negative amount, and an occupied id; otherwise
stores the record at its `tx` key. -/
def TransactionMgr.insert_new_transaction (j : TransactionMgr)
    (t : TransactionDetails) : TransactionMgr × Bool :=
  if t.transaction_type ≠ TransactionType.Deposit ∧
      t.transaction_type ≠ TransactionType.Withdrawal then
    (j, false)
  else
    match t.amount with
    | none => (j, false)
    | some a =>
      if a < 0 then (j, false)
      else
        match alookup j t.tx with
        | some _ => (j, false)
        | none => (j ++ [(t.tx, t)], true)

/-- src/transaction_mgr.rs, `get_transaction`: lookup by id, filtered by
`d.client == client_id`. -/
def TransactionMgr.get_transaction (j : TransactionMgr) (id : Nat)
    (client_id : Nat) : Option TransactionDetails :=
  match alookup j id with
  | none => none
  | some d => if d.client = client_id then some d else none

/-- The router's state: the two stores it mutates
(src/transaction_processor.rs, `TransactionsProcessor`). -/
structure Sys where
  clients : ClientsStatesMgr
  journal : TransactionMgr
deriving DecidableEq

/-- src/transaction_processor.rs, `apply_deposit`: shape checks, duplicate-id
check, ledger deposit, then journal insert; the ledger mutation is not rolled
back if the insert fails. -/
def TransactionsProcessor.apply_deposit (s : Sys) (a : TransactionDetails) :
    Sys × Bool :=
  if a.transaction_type ≠ TransactionType.Deposit then (s, false)
  else
    match a.amount with
    | none => (s, false)
    | some amount =>
      if amount ≤ 0 then (s, false)
      else if TransactionMgr.transaction_exist s.journal a.tx then (s, false)
      else
        let r1 := ClientsStatesMgr.apply_deposit s.clients a.client amount
        if r1.2 = false then ({ clients := r1.1, journal := s.journal }, false)
        else
          let r2 := TransactionMgr.insert_new_transaction s.journal a
          ({ clients := r1.1, journal := r2.1 }, r2.2)

/-- src/transaction_processor.rs, `apply_withdrawal`: shape checks,
duplicate-id check, ledger withdrawal, then journal insert (same
non-rollback structure as the deposit handler). -/
def TransactionsProcessor.apply_withdrawal (s : Sys) (a : TransactionDetails) :
    Sys × Bool :=
  if a.transaction_type ≠ TransactionType.Withdrawal then (s, false)
  else
    match a.amount with
    | none => (s, false)
    | some amount =>
      if TransactionMgr.transaction_exist s.journal a.tx then (s, false)
      else if amount ≤ 0 then (s, false)
      else
        let r1 := ClientsStatesMgr.apply_withdrawal s.clients a.client amount
        if r1.2 = false then ({ clients := r1.1, journal := s.journal }, false)
        else
          let r2 := TransactionMgr.insert_new_transaction s.journal a
          ({ clients := r1.1, journal := r2.1 }, r2.2)

/-- src/transaction_processor.rs, `apply_dispute`: rejects a present amount,
looks the id up via `get_transaction` (client-filtered), unwraps the stored
amount (`none` models the panic) and applies the ledger dispute. -/
def TransactionsProcessor.apply_dispute (s : Sys) (a : TransactionDetails) :
    Option (Sys × Bool) :=
  if a.transaction_type ≠ TransactionType.Dispute ∨ a.amount ≠ none then
    some (s, false)
  else
    match TransactionMgr.get_transaction s.journal a.tx a.client with
    | none => some (s, false)
    | some t =>
      match t.amount with
      | none => none
      | some amount =>
        let r := ClientsStatesMgr.apply_dispute s.clients a.client amount
        some ({ clients := r.1, journal := s.journal }, r.2)

/-- src/transaction_processor.rs, `apply_resolve`: same structure as the
dispute handler, applying the ledger resolve. -/
def TransactionsProcessor.apply_resolve (s : Sys) (a : TransactionDetails) :
    Option (Sys × Bool) :=
  if a.transaction_type ≠ TransactionType.Resolve ∨ a.amount ≠ none then
    some (s, false)
  else
    match TransactionMgr.get_transaction s.journal a.tx a.client with
    | none => some (s, false)
    | some t =>
      match t.amount with
      | none => none
      | some amount =>
        let r := ClientsStatesMgr.apply_resolve s.clients a.client amount
        some ({ clients := r.1, journal := s.journal }, r.2)

/-- src/transaction_processor.rs, `apply_chargeback`: same structure as the
dispute handler plus a (redundant) acting-client check, applying the ledger
chargeback. -/
def TransactionsProcessor.apply_chargeback (s : Sys) (a : TransactionDetails) :
    Option (Sys × Bool) :=
  if a.transaction_type ≠ TransactionType.Chargeback ∨ a.amount ≠ none then
    some (s, false)
  else
    match TransactionMgr.get_transaction s.journal a.tx a.client with
    | none => some (s, false)
    | some t =>
      if t.client ≠ a.client then some (s, false)
      else
        match t.amount with
        | none => none
        | some amount =>
          let r := ClientsStatesMgr.apply_chargeback s.clients a.client amount
          some ({ clients := r.1, journal := s.journal }, r.2)

/-- The dispatch `match` inside `apply_transaction_actions`
(src/transaction_processor.rs): route one incoming action by its kind. -/
def TransactionsProcessor.applyAction (s : Sys) (a : TransactionDetails) :
    Option (Sys × Bool) :=
  match a.transaction_type with
  | TransactionType.Deposit => some (TransactionsProcessor.apply_deposit s a)
  | TransactionType.Withdrawal => some (TransactionsProcessor.apply_withdrawal s a)
  | TransactionType.Dispute => TransactionsProcessor.apply_dispute s a
  | TransactionType.Resolve => TransactionsProcessor.apply_resolve s a
  | TransactionType.Chargeback => TransactionsProcessor.apply_chargeback s a
  | TransactionType.Unknown => some (s, false)

/-- src/transaction_processor.rs, `apply_transaction_actions`: drain the action
stream in order, discarding each action's boolean outcome; `none` models a
panic during some action. -/
def TransactionsProcessor.apply_transaction_actions (s : Sys) :
    List TransactionDetails → Option Sys
  | [] => some s
  | a :: rest =>
    match TransactionsProcessor.applyAction s a with
    | none => none
    | some (s1, _) => TransactionsProcessor.apply_transaction_actions s1 rest

/-- A ledger-level operation: one call to one of the five `ClientsStatesMgr`
balance methods, with its arguments. -/
inductive LedgerOp where
  | deposit (client_id : Nat) (amount : Int)
  | withdrawal (client_id : Nat) (amount : Int)
  | dispute (client_id : Nat) (amount : Int)
  | resolve (client_id : Nat) (amount : Int)
  | chargeback (client_id : Nat) (amount : Int)
deriving DecidableEq

/-- Run one ledger operation. -/
def applyOp (m : ClientsStatesMgr) : LedgerOp → ClientsStatesMgr × Bool
  | LedgerOp.deposit c amt => ClientsStatesMgr.apply_deposit m c amt
  | LedgerOp.withdrawal c amt => ClientsStatesMgr.apply_withdrawal m c amt
  | LedgerOp.dispute c amt => ClientsStatesMgr.apply_dispute m c amt
  | LedgerOp.resolve c amt => ClientsStatesMgr.apply_resolve m c amt
  | LedgerOp.chargeback c amt => ClientsStatesMgr.apply_chargeback m c amt

/-- Run a sequence of ledger operations, keeping the resulting state and
discarding the success flags (as the router does). -/
def applyOps (m : ClientsStatesMgr) (ops : List LedgerOp) : ClientsStatesMgr :=
  ops.foldl (fun m op => (applyOp m op).1) m

/-- The amount argument of a ledger operation. -/
def opAmount : LedgerOp → Int
  | LedgerOp.deposit _ amt => amt
  | LedgerOp.withdrawal _ amt => amt
  | LedgerOp.dispute _ amt => amt
  | LedgerOp.resolve _ amt => amt
  | LedgerOp.chargeback _ amt => amt

/-- Whether a ledger operation is a chargeback. -/
def isChargebackOp : LedgerOp → Bool
  | LedgerOp.chargeback _ _ => true
  | _ => false

/-- The core balance invariant: every account's total equals its available
plus its held funds. -/
def InvTotal (m : ClientsStatesMgr) : Prop :=
  ∀ p ∈ m, (p.2).total = (p.2).available + (p.2).held

/-- Every account has non-negative available and held funds. -/
def NonNegFunds (m : ClientsStatesMgr) : Prop :=
  ∀ p ∈ m, 0 ≤ (p.2).available ∧ 0 ≤ (p.2).held

/-- Every record stored in the journal carries a present amount. -/
def JournalWF (j : TransactionMgr) : Prop :=
  ∀ p ∈ j, (p.2).amount.isSome = true

instance : DecidablePred InvTotal := fun m =>
  List.decidableBAll _ m

instance : DecidablePred NonNegFunds := fun m =>
  List.decidableBAll _ m

instance : DecidablePred JournalWF := fun j =>
  List.decidableBAll _ j

/-! ## Association-list lemmas -/

theorem alookup_aupdate_self {α : Type} (f : α → α) (m : List (Nat × α)) (i : Nat) :
    alookup (aupdate f m i) i = (alookup m i).map f := by
  induction m with
  | nil => rfl
  | cons p rest ih =>
    obtain ⟨k, v⟩ := p
    by_cases hk : k = i
    · simp [aupdate, alookup, hk]
    · simp [aupdate, alookup, hk, ih]

theorem alookup_aupdate_ne {α : Type} (f : α → α) (m : List (Nat × α)) (i j : Nat)
    (h : j ≠ i) : alookup (aupdate f m i) j = alookup m j := by
  induction m with
  | nil => rfl
  | cons p rest ih =>
    obtain ⟨k, v⟩ := p
    by_cases hk : k = i
    · subst hk
      simp [aupdate, alookup, Ne.symm h]
    · by_cases hj : k = j
      · simp [aupdate, alookup, hk, hj, h]
      · simp [aupdate, alookup, hk, hj, ih]

theorem alookup_append {α : Type} (m₁ m₂ : List (Nat × α)) (i : Nat) :
    alookup (m₁ ++ m₂) i =
      (match alookup m₁ i with
        | some v => some v
        | none => alookup m₂ i) := by
  induction m₁ with
  | nil => simp [alookup]
  | cons p rest ih =>
    obtain ⟨k, v⟩ := p
    by_cases hk : k = i
    · simp [alookup, hk]
    · simp [alookup, hk, ih]

theorem alookup_append_left {α : Type} {m₁ : List (Nat × α)} {i : Nat} {v : α}
    (h : alookup m₁ i = some v) (m₂ : List (Nat × α)) :
    alookup (m₁ ++ m₂) i = some v := by
  rw [alookup_append, h]

theorem alookup_append_right {α : Type} {m₁ : List (Nat × α)} {i : Nat}
    (h : alookup m₁ i = none) (m₂ : List (Nat × α)) :
    alookup (m₁ ++ m₂) i = alookup m₂ i := by
  rw [alookup_append, h]

theorem alookup_mem {α : Type} {m : List (Nat × α)} {i : Nat} {v : α}
    (h : alookup m i = some v) : (i, v) ∈ m := by
  induction m with
  | nil => simp [alookup] at h
  | cons p rest ih =>
    obtain ⟨k, w⟩ := p
    by_cases hk : k = i
    · subst hk
      simp [alookup] at h
      subst h
      exact List.mem_cons_self _ _
    · simp [alookup, hk] at h
      exact List.mem_cons_of_mem _ (ih h)

theorem mem_aupdate {α : Type} {f : α → α} {m : List (Nat × α)} {i : Nat}
    {p : Nat × α} (hp : p ∈ aupdate f m i) :
    p ∈ m ∨ ∃ d, alookup m i = some d ∧ p = (i, f d) := by
  induction m with
  | nil => simp [aupdate] at hp
  | cons q rest ih =>
    obtain ⟨k, v⟩ := q
    by_cases hk : k = i
    · subst hk
      simp only [aupdate, if_pos rfl] at hp
      rcases List.mem_cons.mp hp with h | h
      · exact Or.inr ⟨v, by simp [alookup], by simpa using h⟩
      · exact Or.inl (List.mem_cons_of_mem _ h)
    · simp only [aupdate, if_neg hk] at hp
      rcases List.mem_cons.mp hp with h | h
      · exact Or.inl (by simp [h])
      · rcases ih h with h' | ⟨d, hd, he⟩
        · exact Or.inl (List.mem_cons_of_mem _ h')
        · exact Or.inr ⟨d, by simp [alookup, hk, hd], he⟩

/-! ## Shape lemmas for the five ledger operations -/

theorem apply_deposit_found {m : ClientsStatesMgr} {c : Nat} {d : ClientState}
    (h : alookup m c = some d) (amt : Int) :
    ClientsStatesMgr.apply_deposit m c amt =
      (aupdate (fun d => { d with available := d.available + amt,
                                  total := d.total + amt }) m c, true) := by
  unfold ClientsStatesMgr.apply_deposit
  rw [h]

theorem apply_deposit_new {m : ClientsStatesMgr} {c : Nat}
    (h : alookup m c = none) (amt : Int) :
    ClientsStatesMgr.apply_deposit m c amt =
      (aupdate (fun d => { d with available := d.available + amt,
                                  total := d.total + amt })
        (m ++ [(c, ⟨c, 0, 0, 0, false⟩)]) c, true) := by
  unfold ClientsStatesMgr.apply_deposit
  rw [h]

theorem apply_withdrawal_cases (m : ClientsStatesMgr) (c : Nat) (amt : Int) :
    (ClientsStatesMgr.apply_withdrawal m c amt = (m, false) ∧
       (alookup m c = none ∨ ∃ d, alookup m c = some d ∧ d.available < amt)) ∨
    (∃ d, alookup m c = some d ∧ amt ≤ d.available ∧
       ClientsStatesMgr.apply_withdrawal m c amt =
         (aupdate (fun d => { d with available := d.available - amt,
                                     total := d.total - amt }) m c, true)) := by
  unfold ClientsStatesMgr.apply_withdrawal ClientsStatesMgr.get_client_details
  cases h : alookup m c with
  | none => exact Or.inl ⟨rfl, Or.inl rfl⟩
  | some d =>
    by_cases hle : amt ≤ d.available
    · exact Or.inr ⟨d, rfl, hle, by simp [hle]⟩
    · exact Or.inl ⟨by simp [hle], Or.inr ⟨d, rfl, by omega⟩⟩

theorem apply_dispute_cases (m : ClientsStatesMgr) (c : Nat) (amt : Int) :
    (ClientsStatesMgr.apply_dispute m c amt = (m, false) ∧
       (alookup m c = none ∨ ∃ d, alookup m c = some d ∧ d.available < amt)) ∨
    (∃ d, alookup m c = some d ∧ amt ≤ d.available ∧
       ClientsStatesMgr.apply_dispute m c amt =
         (aupdate (fun d => { d with available := d.available - amt,
                                     held := d.held + amt }) m c, true)) := by
  unfold ClientsStatesMgr.apply_dispute ClientsStatesMgr.get_client_details
  cases h : alookup m c with
  | none => exact Or.inl ⟨rfl, Or.inl rfl⟩
  | some d =>
    by_cases hle : amt ≤ d.available
    · exact Or.inr ⟨d, rfl, hle, by simp [hle]⟩
    · exact Or.inl ⟨by simp [hle], Or.inr ⟨d, rfl, by omega⟩⟩

theorem apply_resolve_cases (m : ClientsStatesMgr) (c : Nat) (amt : Int) :
    (ClientsStatesMgr.apply_resolve m c amt = (m, false) ∧
       (alookup m c = none ∨ ∃ d, alookup m c = some d ∧ d.held < amt)) ∨
    (∃ d, alookup m c = some d ∧ amt ≤ d.held ∧
       ClientsStatesMgr.apply_resolve m c amt =
         (aupdate (fun d => { d with available := d.available + amt,
                                     held := d.held - amt }) m c, true)) := by
  unfold ClientsStatesMgr.apply_resolve ClientsStatesMgr.get_client_details
  cases h : alookup m c with
  | none => exact Or.inl ⟨rfl, Or.inl rfl⟩
  | some d =>
    by_cases hle : amt ≤ d.held
    · exact Or.inr ⟨d, rfl, hle, by simp [hle]⟩
    · exact Or.inl ⟨by simp [hle], Or.inr ⟨d, rfl, by omega⟩⟩

theorem apply_chargeback_cases (m : ClientsStatesMgr) (c : Nat) (amt : Int) :
    (ClientsStatesMgr.apply_chargeback m c amt = (m, false) ∧
       (alookup m c = none ∨ ∃ d, alookup m c = some d ∧ d.held < amt)) ∨
    (∃ d, alookup m c = some d ∧ amt ≤ d.held ∧
       ClientsStatesMgr.apply_chargeback m c amt =
         (aupdate (fun d => { d with total := d.total - amt,
                                     held := d.held - amt,
                                     locked := true }) m c, true)) := by
  unfold ClientsStatesMgr.apply_chargeback ClientsStatesMgr.get_client_details
  cases h : alookup m c with
  | none => exact Or.inl ⟨rfl, Or.inl rfl⟩
  | some d =>
    by_cases hle : amt ≤ d.held
    · exact Or.inr ⟨d, rfl, hle, by simp [hle]⟩
    · exact Or.inl ⟨by simp [hle], Or.inr ⟨d, rfl, by omega⟩⟩

/-! ## Invariant-preservation lemmas -/

theorem InvTotal_aupdate {f : ClientState → ClientState} {m : ClientsStatesMgr}
    {c : Nat} (hm : InvTotal m)
    (hf : ∀ d, alookup m c = some d → d.total = d.available + d.held →
      (f d).total = (f d).available + (f d).held) :
    InvTotal (aupdate f m c) := by
  intro p hp
  rcases mem_aupdate hp with h | ⟨d, hd, he⟩
  · exact hm p h
  · subst he
    exact hf d hd (hm _ (alookup_mem hd))

theorem InvTotal_append {m : ClientsStatesMgr} {c : Nat} {v : ClientState}
    (hm : InvTotal m) (hv : v.total = v.available + v.held) :
    InvTotal (m ++ [(c, v)]) := by
  intro p hp
  rcases List.mem_append.mp hp with h | h
  · exact hm p h
  · simp at h
    subst h
    exact hv

theorem NonNegFunds_aupdate {f : ClientState → ClientState} {m : ClientsStatesMgr}
    {c : Nat} (hm : NonNegFunds m)
    (hf : ∀ d, alookup m c = some d → 0 ≤ d.available ∧ 0 ≤ d.held →
      0 ≤ (f d).available ∧ 0 ≤ (f d).held) :
    NonNegFunds (aupdate f m c) := by
  intro p hp
  rcases mem_aupdate hp with h | ⟨d, hd, he⟩
  · exact hm p h
  · subst he
    exact hf d hd (hm _ (alookup_mem hd))

theorem NonNegFunds_append {m : ClientsStatesMgr} {c : Nat} {v : ClientState}
    (hm : NonNegFunds m) (hv : 0 ≤ v.available ∧ 0 ≤ v.held) :
    NonNegFunds (m ++ [(c, v)]) := by
  intro p hp
  rcases List.mem_append.mp hp with h | h
  · exact hm p h
  · simp at h
    subst h
    exact hv

/-- The client-id argument of a ledger operation. -/
def opClient : LedgerOp → Nat
  | LedgerOp.deposit c _ => c
  | LedgerOp.withdrawal c _ => c
  | LedgerOp.dispute c _ => c
  | LedgerOp.resolve c _ => c
  | LedgerOp.chargeback c _ => c

theorem applyOp_frame (m : ClientsStatesMgr) (op : LedgerOp) (j : Nat)
    (h : j ≠ opClient op) : alookup (applyOp m op).1 j = alookup m j := by
  cases op with
  | deposit c amt =>
    have h' : j ≠ c := h
    show alookup (ClientsStatesMgr.apply_deposit m c amt).1 j = alookup m j
    cases hmc : alookup m c with
    | some d =>
      rw [apply_deposit_found hmc amt]
      exact alookup_aupdate_ne _ _ _ _ h'
    | none =>
      rw [apply_deposit_new hmc amt]
      show alookup (aupdate _ (m ++ [(c, ⟨c, 0, 0, 0, false⟩)]) c) j = alookup m j
      rw [alookup_aupdate_ne _ _ _ _ h', alookup_append]
      cases hj : alookup m j with
      | some v => rfl
      | none => simp [alookup, Ne.symm h']
  | withdrawal c amt =>
    have h' : j ≠ c := h
    show alookup (ClientsStatesMgr.apply_withdrawal m c amt).1 j = alookup m j
    rcases apply_withdrawal_cases m c amt with ⟨heq, _⟩ | ⟨d, _, _, heq⟩ <;> rw [heq]
    exact alookup_aupdate_ne _ _ _ _ h'
  | dispute c amt =>
    have h' : j ≠ c := h
    show alookup (ClientsStatesMgr.apply_dispute m c amt).1 j = alookup m j
    rcases apply_dispute_cases m c amt with ⟨heq, _⟩ | ⟨d, _, _, heq⟩ <;> rw [heq]
    exact alookup_aupdate_ne _ _ _ _ h'
  | resolve c amt =>
    have h' : j ≠ c := h
    show alookup (ClientsStatesMgr.apply_resolve m c amt).1 j = alookup m j
    rcases apply_resolve_cases m c amt with ⟨heq, _⟩ | ⟨d, _, _, heq⟩ <;> rw [heq]
    exact alookup_aupdate_ne _ _ _ _ h'
  | chargeback c amt =>
    have h' : j ≠ c := h
    show alookup (ClientsStatesMgr.apply_chargeback m c amt).1 j = alookup m j
    rcases apply_chargeback_cases m c amt with ⟨heq, _⟩ | ⟨d, _, _, heq⟩ <;> rw [heq]
    exact alookup_aupdate_ne _ _ _ _ h'

theorem InvTotal_op (m : ClientsStatesMgr) (op : LedgerOp) (hm : InvTotal m) :
    InvTotal (applyOp m op).1 := by
  cases op with
  | deposit c amt =>
    show InvTotal (ClientsStatesMgr.apply_deposit m c amt).1
    cases hmc : alookup m c with
    | some d =>
      rw [apply_deposit_found hmc amt]
      exact InvTotal_aupdate hm fun d _ hd => by
        show d.total + amt = d.available + amt + d.held
        omega
    | none =>
      rw [apply_deposit_new hmc amt]
      refine InvTotal_aupdate (InvTotal_append hm rfl) fun d _ hd => ?_
      show d.total + amt = d.available + amt + d.held
      omega
  | withdrawal c amt =>
    show InvTotal (ClientsStatesMgr.apply_withdrawal m c amt).1
    rcases apply_withdrawal_cases m c amt with ⟨heq, _⟩ | ⟨d, _, _, heq⟩ <;> rw [heq]
    · exact hm
    · exact InvTotal_aupdate hm fun d _ hd => by
        show d.total - amt = d.available - amt + d.held
        omega
  | dispute c amt =>
    show InvTotal (ClientsStatesMgr.apply_dispute m c amt).1
    rcases apply_dispute_cases m c amt with ⟨heq, _⟩ | ⟨d, _, _, heq⟩ <;> rw [heq]
    · exact hm
    · exact InvTotal_aupdate hm fun d _ hd => by
        show d.total = d.available - amt + (d.held + amt)
        omega
  | resolve c amt =>
    show InvTotal (ClientsStatesMgr.apply_resolve m c amt).1
    rcases apply_resolve_cases m c amt with ⟨heq, _⟩ | ⟨d, _, _, heq⟩ <;> rw [heq]
    · exact hm
    · exact InvTotal_aupdate hm fun d _ hd => by
        show d.total = d.available + amt + (d.held - amt)
        omega
  | chargeback c amt =>
    show InvTotal (ClientsStatesMgr.apply_chargeback m c amt).1
    rcases apply_chargeback_cases m c amt with ⟨heq, _⟩ | ⟨d, _, _, heq⟩ <;> rw [heq]
    · exact hm
    · exact InvTotal_aupdate hm fun d _ hd => by
        show d.total - amt = d.available + (d.held - amt)
        omega

/-! ## Claim theorems -/

/-- **C1**: every ledger operation (`apply_deposit`, `apply_withdrawal`,
`apply_dispute`, `apply_resolve`, `apply_chargeback`), started from a state in
which every account satisfies `total = available + held`, yields a state in
which every account still satisfies that equation, and leaves every account
other than the acted-on one untouched. -/
theorem C1_total_invariant (m : ClientsStatesMgr) (id : Nat) (amt : Int)
    (hm : InvTotal m) :
    (InvTotal (ClientsStatesMgr.apply_deposit m id amt).1 ∧
       ∀ j, j ≠ id → alookup (ClientsStatesMgr.apply_deposit m id amt).1 j = alookup m j) ∧
    (InvTotal (ClientsStatesMgr.apply_withdrawal m id amt).1 ∧
       ∀ j, j ≠ id → alookup (ClientsStatesMgr.apply_withdrawal m id amt).1 j = alookup m j) ∧
    (InvTotal (ClientsStatesMgr.apply_dispute m id amt).1 ∧
       ∀ j, j ≠ id → alookup (ClientsStatesMgr.apply_dispute m id amt).1 j = alookup m j) ∧
    (InvTotal (ClientsStatesMgr.apply_resolve m id amt).1 ∧
       ∀ j, j ≠ id → alookup (ClientsStatesMgr.apply_resolve m id amt).1 j = alookup m j) ∧
    (InvTotal (ClientsStatesMgr.apply_chargeback m id amt).1 ∧
       ∀ j, j ≠ id → alookup (ClientsStatesMgr.apply_chargeback m id amt).1 j = alookup m j) :=
  ⟨⟨InvTotal_op m (LedgerOp.deposit id amt) hm,
      fun j hj => applyOp_frame m (LedgerOp.deposit id amt) j hj⟩,
   ⟨InvTotal_op m (LedgerOp.withdrawal id amt) hm,
      fun j hj => applyOp_frame m (LedgerOp.withdrawal id amt) j hj⟩,
   ⟨InvTotal_op m (LedgerOp.dispute id amt) hm,
      fun j hj => applyOp_frame m (LedgerOp.dispute id amt) j hj⟩,
   ⟨InvTotal_op m (LedgerOp.resolve id amt) hm,
      fun j hj => applyOp_frame m (LedgerOp.resolve id amt) j hj⟩,
   ⟨InvTotal_op m (LedgerOp.chargeback id amt) hm,
      fun j hj => applyOp_frame m (LedgerOp.chargeback id amt) j hj⟩⟩

/-- Witness for C1 at a concrete one-account ledger and a chargeback of 3. -/
theorem C1_total_invariant_witness :
    InvTotal (ClientsStatesMgr.apply_chargeback [(2, ⟨2, 5, 3, 8, false⟩)] 2 3).1 ∧
    alookup (ClientsStatesMgr.apply_chargeback [(2, ⟨2, 5, 3, 8, false⟩)] 2 3).1 7 =
      alookup [(2, ⟨2, 5, 3, 8, false⟩)] 7 :=
  ⟨(C1_total_invariant [(2, ⟨2, 5, 3, 8, false⟩)] 2 3 (by decide)).2.2.2.2.1,
   (C1_total_invariant [(2, ⟨2, 5, 3, 8, false⟩)] 2 3 (by decide)).2.2.2.2.2 7 (by decide)⟩

/-- **C4**: the ledger withdrawal fails exactly when the account is absent or
its available funds are strictly below the amount; on success the account's
available and total each decrease by exactly the amount while its held and
locked fields are unchanged. -/
theorem C4_withdraw_spec (m : ClientsStatesMgr) (id : Nat) (amt : Int) :
    ((ClientsStatesMgr.apply_withdrawal m id amt).2 = false ↔
       alookup m id = none ∨ ∃ st, alookup m id = some st ∧ st.available < amt) ∧
    (∀ st, alookup m id = some st → amt ≤ st.available →
       (ClientsStatesMgr.apply_withdrawal m id amt).2 = true ∧
       alookup (ClientsStatesMgr.apply_withdrawal m id amt).1 id =
         some { st with available := st.available - amt,
                        total := st.total - amt }) := by
  rcases apply_withdrawal_cases m id amt with ⟨heq, hcond⟩ | ⟨d, hd, hle, heq⟩
  · constructor
    · exact ⟨fun _ => hcond, fun _ => by rw [heq]⟩
    · intro st hst hle
      exfalso
      rcases hcond with h | ⟨d, hd, hlt⟩
      · rw [h] at hst
        cases hst
      · rw [hd] at hst
        injection hst with hst
        subst hst
        omega
  · constructor
    · constructor
      · intro hfalse
        rw [heq] at hfalse
        simp at hfalse
      · intro hcond
        exfalso
        rcases hcond with h | ⟨st, hst, hlt⟩
        · rw [h] at hd
          cases hd
        · rw [hst] at hd
          injection hd with hd
          subst hd
          omega
    · intro st hst hle2
      rw [heq]
      refine ⟨rfl, ?_⟩
      rw [alookup_aupdate_self, hst]
      rfl

/-- Witness for C4: withdrawing 9 from an account with 11 available succeeds
and leaves available 2, total 2, held and locked unchanged. -/
theorem C4_withdraw_spec_witness :
    (ClientsStatesMgr.apply_withdrawal [(2, ⟨2, 11, 0, 11, false⟩)] 2 9).2 = true ∧
    alookup (ClientsStatesMgr.apply_withdrawal [(2, ⟨2, 11, 0, 11, false⟩)] 2 9).1 2 =
      some ⟨2, 2, 0, 2, false⟩ :=
  (C4_withdraw_spec [(2, ⟨2, 11, 0, 11, false⟩)] 2 9).2 ⟨2, 11, 0, 11, false⟩ rfl
    (by decide)

/-- **C5**: the ledger chargeback fails exactly when the account is absent or
its held funds are strictly below the amount; on success held and total each
decrease by exactly the amount, locked is set to true, and available is left
untouched. -/
theorem C5_chargeback_spec (m : ClientsStatesMgr) (id : Nat) (amt : Int) :
    ((ClientsStatesMgr.apply_chargeback m id amt).2 = false ↔
       alookup m id = none ∨ ∃ st, alookup m id = some st ∧ st.held < amt) ∧
    (∀ st, alookup m id = some st → amt ≤ st.held →
       (ClientsStatesMgr.apply_chargeback m id amt).2 = true ∧
       alookup (ClientsStatesMgr.apply_chargeback m id amt).1 id =
         some { st with total := st.total - amt,
                        held := st.held - amt,
                        locked := true }) := by
  rcases apply_chargeback_cases m id amt with ⟨heq, hcond⟩ | ⟨d, hd, hle, heq⟩
  · constructor
    · exact ⟨fun _ => hcond, fun _ => by rw [heq]⟩
    · intro st hst hle
      exfalso
      rcases hcond with h | ⟨d, hd, hlt⟩
      · rw [h] at hst
        cases hst
      · rw [hd] at hst
        injection hst with hst
        subst hst
        omega
  · constructor
    · constructor
      · intro hfalse
        rw [heq] at hfalse
        simp at hfalse
      · intro hcond
        exfalso
        rcases hcond with h | ⟨st, hst, hlt⟩
        · rw [h] at hd
          cases hd
        · rw [hst] at hd
          injection hd with hd
          subst hd
          omega
    · intro st hst hle2
      rw [heq]
      refine ⟨rfl, ?_⟩
      rw [alookup_aupdate_self, hst]
      rfl

/-- Witness for C5: a chargeback of 10 against held 35 succeeds, moves held to
25 and total to 50, locks the account and keeps available at 25. -/
theorem C5_chargeback_spec_witness :
    (ClientsStatesMgr.apply_chargeback [(2, ⟨2, 25, 35, 60, false⟩)] 2 10).2 = true ∧
    alookup (ClientsStatesMgr.apply_chargeback [(2, ⟨2, 25, 35, 60, false⟩)] 2 10).1 2 =
      some ⟨2, 25, 25, 50, true⟩ :=
  (C5_chargeback_spec [(2, ⟨2, 25, 35, 60, false⟩)] 2 10).2 ⟨2, 25, 35, 60, false⟩ rfl
    (by decide)

theorem NonNegFunds_op (m : ClientsStatesMgr) (op : LedgerOp)
    (hm : NonNegFunds m) (ha : 0 ≤ opAmount op) :
    NonNegFunds (applyOp m op).1 := by
  cases op with
  | deposit c amt =>
    have ha' : (0 : Int) ≤ amt := ha
    show NonNegFunds (ClientsStatesMgr.apply_deposit m c amt).1
    cases hmc : alookup m c with
    | some d =>
      rw [apply_deposit_found hmc amt]
      refine NonNegFunds_aupdate hm fun d _ hd => ?_
      show 0 ≤ d.available + amt ∧ 0 ≤ d.held
      omega
    | none =>
      rw [apply_deposit_new hmc amt]
      refine NonNegFunds_aupdate (NonNegFunds_append hm (by constructor <;> rfl)) fun d _ hd => ?_
      show 0 ≤ d.available + amt ∧ 0 ≤ d.held
      omega
  | withdrawal c amt =>
    have ha' : (0 : Int) ≤ amt := ha
    show NonNegFunds (ClientsStatesMgr.apply_withdrawal m c amt).1
    rcases apply_withdrawal_cases m c amt with ⟨heq, _⟩ | ⟨d0, hd0, hle, heq⟩ <;> rw [heq]
    · exact hm
    · refine NonNegFunds_aupdate hm fun d hdl hd => ?_
      rw [hdl] at hd0
      injection hd0 with hd0
      subst hd0
      show 0 ≤ d.available - amt ∧ 0 ≤ d.held
      omega
  | dispute c amt =>
    have ha' : (0 : Int) ≤ amt := ha
    show NonNegFunds (ClientsStatesMgr.apply_dispute m c amt).1
    rcases apply_dispute_cases m c amt with ⟨heq, _⟩ | ⟨d0, hd0, hle, heq⟩ <;> rw [heq]
    · exact hm
    · refine NonNegFunds_aupdate hm fun d hdl hd => ?_
      rw [hdl] at hd0
      injection hd0 with hd0
      subst hd0
      show 0 ≤ d.available - amt ∧ 0 ≤ d.held + amt
      omega
  | resolve c amt =>
    have ha' : (0 : Int) ≤ amt := ha
    show NonNegFunds (ClientsStatesMgr.apply_resolve m c amt).1
    rcases apply_resolve_cases m c amt with ⟨heq, _⟩ | ⟨d0, hd0, hle, heq⟩ <;> rw [heq]
    · exact hm
    · refine NonNegFunds_aupdate hm fun d hdl hd => ?_
      rw [hdl] at hd0
      injection hd0 with hd0
      subst hd0
      show 0 ≤ d.available + amt ∧ 0 ≤ d.held - amt
      omega
  | chargeback c amt =>
    have ha' : (0 : Int) ≤ amt := ha
    show NonNegFunds (ClientsStatesMgr.apply_chargeback m c amt).1
    rcases apply_chargeback_cases m c amt with ⟨heq, _⟩ | ⟨d0, hd0, hle, heq⟩ <;> rw [heq]
    · exact hm
    · refine NonNegFunds_aupdate hm fun d hdl hd => ?_
      rw [hdl] at hd0
      injection hd0 with hd0
      subst hd0
      show 0 ≤ d.available ∧ 0 ≤ d.held - amt
      omega

/-- **C10**: starting from a ledger whose every account has non-negative
available and held funds (in particular the empty ledger, since accounts are
created with zero balances), running any sequence of the five ledger
operations with non-negative amounts preserves `0 ≤ available` and
`0 ≤ held` for every account at every point. -/
theorem C10_nonneg_funds (m : ClientsStatesMgr) (ops : List LedgerOp)
    (hm : NonNegFunds m) (ha : ∀ op ∈ ops, 0 ≤ opAmount op) :
    NonNegFunds (applyOps m ops) := by
  induction ops generalizing m with
  | nil => exact hm
  | cons op rest ih =>
    exact ih (applyOp m op).1
      (NonNegFunds_op m op hm (ha op (List.mem_cons_self _ _)))
      (fun o ho => ha o (List.mem_cons_of_mem _ ho))

/-- Witness for C10: a deposit of 5 followed by a dispute of 3 and a
chargeback of 2, run from the empty ledger, keeps all funds non-negative. -/
theorem C10_nonneg_funds_witness :
    NonNegFunds (applyOps []
      [LedgerOp.deposit 1 5, LedgerOp.dispute 1 3, LedgerOp.chargeback 1 2]) :=
  C10_nonneg_funds [] [LedgerOp.deposit 1 5, LedgerOp.dispute 1 3, LedgerOp.chargeback 1 2]
    (by decide) (by decide)

theorem locked_op_mono (m : ClientsStatesMgr) (op : LedgerOp) (id : Nat)
    (st : ClientState) (h : alookup m id = some st) (hl : st.locked = true) :
    ∃ st', alookup (applyOp m op).1 id = some st' ∧ st'.locked = true := by
  cases op with
  | deposit c amt =>
    by_cases hc : id = c
    · subst hc
      show ∃ st', alookup (ClientsStatesMgr.apply_deposit m id amt).1 id = some st' ∧
        st'.locked = true
      rw [apply_deposit_found h amt, alookup_aupdate_self, h]
      exact ⟨_, rfl, hl⟩
    · refine ⟨st, ?_, hl⟩
      rw [applyOp_frame m (LedgerOp.deposit c amt) id hc]
      exact h
  | withdrawal c amt =>
    rcases apply_withdrawal_cases m c amt with ⟨heq, _⟩ | ⟨d0, hd0, hle, heq⟩
    · refine ⟨st, ?_, hl⟩
      show alookup (ClientsStatesMgr.apply_withdrawal m c amt).1 id = some st
      rw [heq]
      exact h
    · by_cases hc : id = c
      · subst hc
        have hres : alookup (ClientsStatesMgr.apply_withdrawal m id amt).1 id =
            some { st with available := st.available - amt, total := st.total - amt } := by
          rw [heq, alookup_aupdate_self, h]
          rfl
        exact ⟨_, hres, hl⟩
      · refine ⟨st, ?_, hl⟩
        rw [applyOp_frame m (LedgerOp.withdrawal c amt) id hc]
        exact h
  | dispute c amt =>
    rcases apply_dispute_cases m c amt with ⟨heq, _⟩ | ⟨d0, hd0, hle, heq⟩
    · refine ⟨st, ?_, hl⟩
      show alookup (ClientsStatesMgr.apply_dispute m c amt).1 id = some st
      rw [heq]
      exact h
    · by_cases hc : id = c
      · subst hc
        have hres : alookup (ClientsStatesMgr.apply_dispute m id amt).1 id =
            some { st with available := st.available - amt, held := st.held + amt } := by
          rw [heq, alookup_aupdate_self, h]
          rfl
        exact ⟨_, hres, hl⟩
      · refine ⟨st, ?_, hl⟩
        rw [applyOp_frame m (LedgerOp.dispute c amt) id hc]
        exact h
  | resolve c amt =>
    rcases apply_resolve_cases m c amt with ⟨heq, _⟩ | ⟨d0, hd0, hle, heq⟩
    · refine ⟨st, ?_, hl⟩
      show alookup (ClientsStatesMgr.apply_resolve m c amt).1 id = some st
      rw [heq]
      exact h
    · by_cases hc : id = c
      · subst hc
        have hres : alookup (ClientsStatesMgr.apply_resolve m id amt).1 id =
            some { st with available := st.available + amt, held := st.held - amt } := by
          rw [heq, alookup_aupdate_self, h]
          rfl
        exact ⟨_, hres, hl⟩
      · refine ⟨st, ?_, hl⟩
        rw [applyOp_frame m (LedgerOp.resolve c amt) id hc]
        exact h
  | chargeback c amt =>
    rcases apply_chargeback_cases m c amt with ⟨heq, _⟩ | ⟨d0, hd0, hle, heq⟩
    · refine ⟨st, ?_, hl⟩
      show alookup (ClientsStatesMgr.apply_chargeback m c amt).1 id = some st
      rw [heq]
      exact h
    · by_cases hc : id = c
      · subst hc
        have hres : alookup (ClientsStatesMgr.apply_chargeback m id amt).1 id =
            some { st with total := st.total - amt, held := st.held - amt,
                           locked := true } := by
          rw [heq, alookup_aupdate_self, h]
          rfl
        exact ⟨_, hres, rfl⟩
      · refine ⟨st, ?_, hl⟩
        rw [applyOp_frame m (LedgerOp.chargeback c amt) id hc]
        exact h

theorem locked_op_origin (m : ClientsStatesMgr) (op : LedgerOp)
    (hop : isChargebackOp op = false) (j : Nat) (st' : ClientState)
    (h : alookup (applyOp m op).1 j = some st') (hl : st'.locked = true) :
    ∃ st0, alookup m j = some st0 ∧ st0.locked = true := by
  cases op with
  | chargeback c amt => simp [isChargebackOp] at hop
  | deposit c amt =>
    by_cases hc : j = c
    · subst hc
      cases hmc : alookup m j with
      | some d =>
        rw [show (applyOp m (LedgerOp.deposit j amt)).1 =
              (ClientsStatesMgr.apply_deposit m j amt).1 from rfl,
            apply_deposit_found hmc amt, alookup_aupdate_self, hmc] at h
        injection h with h
        refine ⟨d, rfl, ?_⟩
        rw [← h] at hl
        exact hl
      | none =>
        rw [show (applyOp m (LedgerOp.deposit j amt)).1 =
              (ClientsStatesMgr.apply_deposit m j amt).1 from rfl,
            apply_deposit_new hmc amt, alookup_aupdate_self,
            alookup_append_right hmc] at h
        simp [alookup] at h
        rw [← h] at hl
        cases hl
    · refine ⟨st', ?_, hl⟩
      rw [← applyOp_frame m (LedgerOp.deposit c amt) j hc]
      exact h
  | withdrawal c amt =>
    rcases apply_withdrawal_cases m c amt with ⟨heq, _⟩ | ⟨d0, hd0, hle, heq⟩
    · refine ⟨st', ?_, hl⟩
      rw [show (applyOp m (LedgerOp.withdrawal c amt)).1 =
            (ClientsStatesMgr.apply_withdrawal m c amt).1 from rfl, heq] at h
      exact h
    · by_cases hc : j = c
      · subst hc
        rw [show (applyOp m (LedgerOp.withdrawal j amt)).1 =
              (ClientsStatesMgr.apply_withdrawal m j amt).1 from rfl,
            heq, alookup_aupdate_self, hd0] at h
        injection h with h
        refine ⟨d0, hd0, ?_⟩
        rw [← h] at hl
        exact hl
      · refine ⟨st', ?_, hl⟩
        rw [← applyOp_frame m (LedgerOp.withdrawal c amt) j hc]
        exact h
  | dispute c amt =>
    rcases apply_dispute_cases m c amt with ⟨heq, _⟩ | ⟨d0, hd0, hle, heq⟩
    · refine ⟨st', ?_, hl⟩
      rw [show (applyOp m (LedgerOp.dispute c amt)).1 =
            (ClientsStatesMgr.apply_dispute m c amt).1 from rfl, heq] at h
      exact h
    · by_cases hc : j = c
      · subst hc
        rw [show (applyOp m (LedgerOp.dispute j amt)).1 =
              (ClientsStatesMgr.apply_dispute m j amt).1 from rfl,
            heq, alookup_aupdate_self, hd0] at h
        injection h with h
        refine ⟨d0, hd0, ?_⟩
        rw [← h] at hl
        exact hl
      · refine ⟨st', ?_, hl⟩
        rw [← applyOp_frame m (LedgerOp.dispute c amt) j hc]
        exact h
  | resolve c amt =>
    rcases apply_resolve_cases m c amt with ⟨heq, _⟩ | ⟨d0, hd0, hle, heq⟩
    · refine ⟨st', ?_, hl⟩
      rw [show (applyOp m (LedgerOp.resolve c amt)).1 =
            (ClientsStatesMgr.apply_resolve m c amt).1 from rfl, heq] at h
      exact h
    · by_cases hc : j = c
      · subst hc
        rw [show (applyOp m (LedgerOp.resolve j amt)).1 =
              (ClientsStatesMgr.apply_resolve m j amt).1 from rfl,
            heq, alookup_aupdate_self, hd0] at h
        injection h with h
        refine ⟨d0, hd0, ?_⟩
        rw [← h] at hl
        exact hl
      · refine ⟨st', ?_, hl⟩
        rw [← applyOp_frame m (LedgerOp.resolve c amt) j hc]
        exact h

/-- **C7**: the locked flag is monotonic: once an account is locked, after any
further sequence of ledger operations it is still present and locked — and
only the chargeback operation can make an account locked (any account locked
after a non-chargeback operation was already locked before it). -/
theorem C7_locked_monotonic (m : ClientsStatesMgr) :
    (∀ ops : List LedgerOp, ∀ id : Nat, ∀ st : ClientState,
       alookup m id = some st → st.locked = true →
       ∃ st', alookup (applyOps m ops) id = some st' ∧ st'.locked = true) ∧
    (∀ op : LedgerOp, isChargebackOp op = false →
       ∀ j st', alookup (applyOp m op).1 j = some st' → st'.locked = true →
       ∃ st0, alookup m j = some st0 ∧ st0.locked = true) := by
  constructor
  · intro ops
    induction ops generalizing m with
    | nil => exact fun id st h hl => ⟨st, h, hl⟩
    | cons op rest ih =>
      intro id st h hl
      obtain ⟨st1, h1, hl1⟩ := locked_op_mono m op id st h hl
      exact ih (applyOp m op).1 id st1 h1 hl1
  · exact locked_op_origin m

/-- Witness for C7: account 2 locked by a chargeback stays locked across a
later deposit and dispute, and a plain deposit cannot have locked account 3. -/
theorem C7_locked_monotonic_witness :
    (∃ st', alookup (applyOps [(2, ⟨2, 4, 0, 4, true⟩)]
        [LedgerOp.deposit 2 5, LedgerOp.dispute 2 3]) 2 = some st' ∧
      st'.locked = true) ∧
    (∃ st0, alookup ([(3, ⟨3, 1, 0, 1, true⟩)] : ClientsStatesMgr) 3 = some st0 ∧
      st0.locked = true) :=
  ⟨(C7_locked_monotonic [(2, ⟨2, 4, 0, 4, true⟩)]).1
      [LedgerOp.deposit 2 5, LedgerOp.dispute 2 3] 2 ⟨2, 4, 0, 4, true⟩ rfl rfl,
   (C7_locked_monotonic [(3, ⟨3, 1, 0, 1, true⟩)]).2
      (LedgerOp.deposit 3 2) rfl 3 (⟨3, 3, 0, 3, true⟩ : ClientState) (by decide) rfl⟩

/-! ## Journal and router support lemmas -/

theorem transaction_exist_eq_false {j : TransactionMgr} {id : Nat}
    (h : TransactionMgr.transaction_exist j id = false) : alookup j id = none := by
  unfold TransactionMgr.transaction_exist at h
  cases hm : alookup j id with
  | none => rfl
  | some v =>
    rw [hm] at h
    simp at h

theorem transaction_exist_eq_true {j : TransactionMgr} {id : Nat}
    {r : TransactionDetails} (h : alookup j id = some r) :
    TransactionMgr.transaction_exist j id = true := by
  unfold TransactionMgr.transaction_exist
  rw [h]
  rfl

theorem insert_new_transaction_spec (j : TransactionMgr) (t : TransactionDetails)
    (hk : t.transaction_type = TransactionType.Deposit ∨
          t.transaction_type = TransactionType.Withdrawal)
    (x : Int) (hx : t.amount = some x) (hx0 : 0 ≤ x)
    (hnew : alookup j t.tx = none) :
    TransactionMgr.insert_new_transaction j t = (j ++ [(t.tx, t)], true) := by
  rcases hk with hk | hk <;>
    simp [TransactionMgr.insert_new_transaction, hk, hx, hnew,
      show ¬ x < 0 by omega]

theorem JournalWF_insert {j : TransactionMgr} {t : TransactionDetails}
    (hwf : JournalWF j) :
    JournalWF (TransactionMgr.insert_new_transaction j t).1 := by
  by_cases hk : (t.transaction_type ≠ TransactionType.Deposit ∧
      t.transaction_type ≠ TransactionType.Withdrawal)
  · unfold TransactionMgr.insert_new_transaction
    rw [if_pos hk]
    exact hwf
  · unfold TransactionMgr.insert_new_transaction
    rw [if_neg hk]
    cases ht : t.amount with
    | none => exact hwf
    | some x =>
      show JournalWF (if x < 0 then ((j : TransactionMgr), false)
        else match alookup j t.tx with
          | some _ => (j, false)
          | none => (j ++ [(t.tx, t)], true)).1
      by_cases hlt : x < 0
      · rw [if_pos hlt]
        exact hwf
      · rw [if_neg hlt]
        cases hj : alookup j t.tx with
        | some v => exact hwf
        | none =>
          intro p hp
          rcases List.mem_append.mp hp with h | h
          · exact hwf p h
          · simp at h
            subst h
            simp [ht]

theorem get_transaction_spec {j : TransactionMgr} {id c : Nat}
    {t : TransactionDetails} (h : TransactionMgr.get_transaction j id c = some t) :
    alookup j id = some t ∧ t.client = c := by
  unfold TransactionMgr.get_transaction at h
  cases hj : alookup j id with
  | none =>
    rw [hj] at h
    cases h
  | some d =>
    rw [hj] at h
    by_cases hc : d.client = c
    · simp only [hc, if_true] at h
      injection h with h
      subst h
      exact ⟨rfl, hc⟩
    · simp only [hc, if_false] at h
      cases h

theorem apply_deposit_snd (m : ClientsStatesMgr) (c : Nat) (amt : Int) :
    (ClientsStatesMgr.apply_deposit m c amt).2 = true := rfl

theorem applyOp_fail_eq (m : ClientsStatesMgr) (op : LedgerOp)
    (h : (applyOp m op).2 = false) : (applyOp m op).1 = m := by
  cases op with
  | deposit c amt => exact absurd h (by simp [applyOp, apply_deposit_snd])
  | withdrawal c amt =>
    rcases apply_withdrawal_cases m c amt with ⟨heq, _⟩ | ⟨d0, _, _, heq⟩
    · show (ClientsStatesMgr.apply_withdrawal m c amt).1 = m
      rw [heq]
    · exact absurd h (by show ¬(ClientsStatesMgr.apply_withdrawal m c amt).2 = false; rw [heq]; simp)
  | dispute c amt =>
    rcases apply_dispute_cases m c amt with ⟨heq, _⟩ | ⟨d0, _, _, heq⟩
    · show (ClientsStatesMgr.apply_dispute m c amt).1 = m
      rw [heq]
    · exact absurd h (by show ¬(ClientsStatesMgr.apply_dispute m c amt).2 = false; rw [heq]; simp)
  | resolve c amt =>
    rcases apply_resolve_cases m c amt with ⟨heq, _⟩ | ⟨d0, _, _, heq⟩
    · show (ClientsStatesMgr.apply_resolve m c amt).1 = m
      rw [heq]
    · exact absurd h (by show ¬(ClientsStatesMgr.apply_resolve m c amt).2 = false; rw [heq]; simp)
  | chargeback c amt =>
    rcases apply_chargeback_cases m c amt with ⟨heq, _⟩ | ⟨d0, _, _, heq⟩
    · show (ClientsStatesMgr.apply_chargeback m c amt).1 = m
      rw [heq]
    · exact absurd h (by show ¬(ClientsStatesMgr.apply_chargeback m c amt).2 = false; rw [heq]; simp)

theorem apply_withdrawal_fail_eq {m : ClientsStatesMgr} {c : Nat} {amt : Int}
    (h : (ClientsStatesMgr.apply_withdrawal m c amt).2 = false) :
    (ClientsStatesMgr.apply_withdrawal m c amt).1 = m :=
  applyOp_fail_eq m (LedgerOp.withdrawal c amt) h

theorem apply_dispute_fail_eq {m : ClientsStatesMgr} {c : Nat} {amt : Int}
    (h : (ClientsStatesMgr.apply_dispute m c amt).2 = false) :
    (ClientsStatesMgr.apply_dispute m c amt).1 = m :=
  applyOp_fail_eq m (LedgerOp.dispute c amt) h

theorem apply_resolve_fail_eq {m : ClientsStatesMgr} {c : Nat} {amt : Int}
    (h : (ClientsStatesMgr.apply_resolve m c amt).2 = false) :
    (ClientsStatesMgr.apply_resolve m c amt).1 = m :=
  applyOp_fail_eq m (LedgerOp.resolve c amt) h

theorem apply_chargeback_fail_eq {m : ClientsStatesMgr} {c : Nat} {amt : Int}
    (h : (ClientsStatesMgr.apply_chargeback m c amt).2 = false) :
    (ClientsStatesMgr.apply_chargeback m c amt).1 = m :=
  applyOp_fail_eq m (LedgerOp.chargeback c amt) h

theorem proc_deposit_cases (s : Sys) (a : TransactionDetails) :
    (TransactionsProcessor.apply_deposit s a = (s, false) ∧
       (a.transaction_type ≠ TransactionType.Deposit ∨ a.amount = none ∨
        (∃ x, a.amount = some x ∧ x ≤ 0) ∨
        TransactionMgr.transaction_exist s.journal a.tx = true)) ∨
    (∃ x, a.amount = some x ∧ a.transaction_type = TransactionType.Deposit ∧
       0 < x ∧ TransactionMgr.transaction_exist s.journal a.tx = false ∧
       TransactionsProcessor.apply_deposit s a =
         ({ clients := (ClientsStatesMgr.apply_deposit s.clients a.client x).1,
            journal := s.journal ++ [(a.tx, a)] }, true)) := by
  by_cases hty : a.transaction_type = TransactionType.Deposit
  case neg =>
    refine Or.inl ⟨?_, Or.inl hty⟩
    unfold TransactionsProcessor.apply_deposit
    rw [if_pos (by simp [hty])]
  case pos =>
    cases hamt : a.amount with
    | none =>
      refine Or.inl ⟨?_, Or.inr (Or.inl rfl)⟩
      unfold TransactionsProcessor.apply_deposit
      rw [if_neg (by simp [hty])]
      simp only [hamt]
    | some x =>
      by_cases hx : x ≤ 0
      · refine Or.inl ⟨?_, Or.inr (Or.inr (Or.inl ⟨x, rfl, hx⟩))⟩
        unfold TransactionsProcessor.apply_deposit
        rw [if_neg (by simp [hty])]
        simp only [hamt, if_pos hx]
      · cases hex : TransactionMgr.transaction_exist s.journal a.tx with
        | true =>
          refine Or.inl ⟨?_, Or.inr (Or.inr (Or.inr rfl))⟩
          unfold TransactionsProcessor.apply_deposit
          rw [if_neg (by simp [hty])]
          simp only [hamt, hex, if_neg hx]
          simp
        | false =>
          have hins := insert_new_transaction_spec s.journal a (Or.inl hty) x hamt
            (by omega) (transaction_exist_eq_false hex)
          refine Or.inr ⟨x, rfl, hty, by omega, rfl, ?_⟩
          unfold TransactionsProcessor.apply_deposit
          rw [if_neg (by simp [hty])]
          simp only [hamt, hex, if_neg hx, apply_deposit_snd, hins]
          simp

theorem proc_withdrawal_cases (s : Sys) (a : TransactionDetails) :
    TransactionsProcessor.apply_withdrawal s a = (s, false) ∨
    (∃ x, a.amount = some x ∧ a.transaction_type = TransactionType.Withdrawal ∧
       0 < x ∧ TransactionMgr.transaction_exist s.journal a.tx = false ∧
       (ClientsStatesMgr.apply_withdrawal s.clients a.client x).2 = true ∧
       TransactionsProcessor.apply_withdrawal s a =
         ({ clients := (ClientsStatesMgr.apply_withdrawal s.clients a.client x).1,
            journal := s.journal ++ [(a.tx, a)] }, true)) := by
  by_cases hty : a.transaction_type = TransactionType.Withdrawal
  case neg =>
    refine Or.inl ?_
    unfold TransactionsProcessor.apply_withdrawal
    rw [if_pos (by simp [hty])]
  case pos =>
    cases hamt : a.amount with
    | none =>
      refine Or.inl ?_
      unfold TransactionsProcessor.apply_withdrawal
      rw [if_neg (by simp [hty])]
      simp only [hamt]
    | some x =>
      cases hex : TransactionMgr.transaction_exist s.journal a.tx with
      | true =>
        refine Or.inl ?_
        unfold TransactionsProcessor.apply_withdrawal
        rw [if_neg (by simp [hty])]
        simp only [hamt, hex]
        simp
      | false =>
        by_cases hx : x ≤ 0
        · refine Or.inl ?_
          unfold TransactionsProcessor.apply_withdrawal
          rw [if_neg (by simp [hty])]
          simp only [hamt, hex, if_pos hx]
          simp
        · cases hled : (ClientsStatesMgr.apply_withdrawal s.clients a.client x).2 with
          | false =>
            refine Or.inl ?_
            unfold TransactionsProcessor.apply_withdrawal
            rw [if_neg (by simp [hty])]
            simp only [hamt, hex, if_neg hx, hled]
            simp [apply_withdrawal_fail_eq hled]
          | true =>
            have hins := insert_new_transaction_spec s.journal a (Or.inr hty) x hamt
              (by omega) (transaction_exist_eq_false hex)
            refine Or.inr ⟨x, rfl, hty, by omega, rfl, hled, ?_⟩
            unfold TransactionsProcessor.apply_withdrawal
            rw [if_neg (by simp [hty])]
            simp only [hamt, hex, if_neg hx, hled, hins]
            simp

theorem proc_dispute_cases (s : Sys) (a : TransactionDetails) :
    (TransactionsProcessor.apply_dispute s a = some (s, false) ∧
       (a.transaction_type ≠ TransactionType.Dispute ∨ a.amount ≠ none ∨
        TransactionMgr.get_transaction s.journal a.tx a.client = none)) ∨
    (∃ t, TransactionMgr.get_transaction s.journal a.tx a.client = some t ∧
       a.transaction_type = TransactionType.Dispute ∧ a.amount = none ∧
       ((t.amount = none ∧ TransactionsProcessor.apply_dispute s a = none) ∨
        (∃ x, t.amount = some x ∧
           TransactionsProcessor.apply_dispute s a =
             some ({ clients := (ClientsStatesMgr.apply_dispute s.clients a.client x).1,
                     journal := s.journal },
                   (ClientsStatesMgr.apply_dispute s.clients a.client x).2)))) := by
  by_cases hsh : a.transaction_type ≠ TransactionType.Dispute ∨ a.amount ≠ none
  · refine Or.inl ⟨?_, ?_⟩
    · unfold TransactionsProcessor.apply_dispute
      rw [if_pos hsh]
    · rcases hsh with h | h
      · exact Or.inl h
      · exact Or.inr (Or.inl h)
  · push_neg at hsh
    obtain ⟨hty, hamt⟩ := hsh
    have hcond : ¬ (a.transaction_type ≠ TransactionType.Dispute ∨ a.amount ≠ none) := by
      push_neg
      exact ⟨hty, hamt⟩
    cases hget : TransactionMgr.get_transaction s.journal a.tx a.client with
    | none =>
      refine Or.inl ⟨?_, Or.inr (Or.inr rfl)⟩
      unfold TransactionsProcessor.apply_dispute
      rw [if_neg hcond]
      simp only [hget]
    | some t =>
      refine Or.inr ⟨t, rfl, hty, hamt, ?_⟩
      cases htam : t.amount with
      | none =>
        refine Or.inl ⟨rfl, ?_⟩
        unfold TransactionsProcessor.apply_dispute
        rw [if_neg hcond]
        simp only [hget, htam]
      | some x =>
        refine Or.inr ⟨x, rfl, ?_⟩
        unfold TransactionsProcessor.apply_dispute
        rw [if_neg hcond]
        simp only [hget, htam]

theorem proc_resolve_cases (s : Sys) (a : TransactionDetails) :
    (TransactionsProcessor.apply_resolve s a = some (s, false) ∧
       (a.transaction_type ≠ TransactionType.Resolve ∨ a.amount ≠ none ∨
        TransactionMgr.get_transaction s.journal a.tx a.client = none)) ∨
    (∃ t, TransactionMgr.get_transaction s.journal a.tx a.client = some t ∧
       a.transaction_type = TransactionType.Resolve ∧ a.amount = none ∧
       ((t.amount = none ∧ TransactionsProcessor.apply_resolve s a = none) ∨
        (∃ x, t.amount = some x ∧
           TransactionsProcessor.apply_resolve s a =
             some ({ clients := (ClientsStatesMgr.apply_resolve s.clients a.client x).1,
                     journal := s.journal },
                   (ClientsStatesMgr.apply_resolve s.clients a.client x).2)))) := by
  by_cases hsh : a.transaction_type ≠ TransactionType.Resolve ∨ a.amount ≠ none
  · refine Or.inl ⟨?_, ?_⟩
    · unfold TransactionsProcessor.apply_resolve
      rw [if_pos hsh]
    · rcases hsh with h | h
      · exact Or.inl h
      · exact Or.inr (Or.inl h)
  · push_neg at hsh
    obtain ⟨hty, hamt⟩ := hsh
    have hcond : ¬ (a.transaction_type ≠ TransactionType.Resolve ∨ a.amount ≠ none) := by
      push_neg
      exact ⟨hty, hamt⟩
    cases hget : TransactionMgr.get_transaction s.journal a.tx a.client with
    | none =>
      refine Or.inl ⟨?_, Or.inr (Or.inr rfl)⟩
      unfold TransactionsProcessor.apply_resolve
      rw [if_neg hcond]
      simp only [hget]
    | some t =>
      refine Or.inr ⟨t, rfl, hty, hamt, ?_⟩
      cases htam : t.amount with
      | none =>
        refine Or.inl ⟨rfl, ?_⟩
        unfold TransactionsProcessor.apply_resolve
        rw [if_neg hcond]
        simp only [hget, htam]
      | some x =>
        refine Or.inr ⟨x, rfl, ?_⟩
        unfold TransactionsProcessor.apply_resolve
        rw [if_neg hcond]
        simp only [hget, htam]

theorem proc_chargeback_cases (s : Sys) (a : TransactionDetails) :
    (TransactionsProcessor.apply_chargeback s a = some (s, false) ∧
       (a.transaction_type ≠ TransactionType.Chargeback ∨ a.amount ≠ none ∨
        TransactionMgr.get_transaction s.journal a.tx a.client = none)) ∨
    (∃ t, TransactionMgr.get_transaction s.journal a.tx a.client = some t ∧
       a.transaction_type = TransactionType.Chargeback ∧ a.amount = none ∧
       ((t.amount = none ∧ TransactionsProcessor.apply_chargeback s a = none) ∨
        (∃ x, t.amount = some x ∧
           TransactionsProcessor.apply_chargeback s a =
             some ({ clients := (ClientsStatesMgr.apply_chargeback s.clients a.client x).1,
                     journal := s.journal },
                   (ClientsStatesMgr.apply_chargeback s.clients a.client x).2)))) := by
  by_cases hsh : a.transaction_type ≠ TransactionType.Chargeback ∨ a.amount ≠ none
  · refine Or.inl ⟨?_, ?_⟩
    · unfold TransactionsProcessor.apply_chargeback
      rw [if_pos hsh]
    · rcases hsh with h | h
      · exact Or.inl h
      · exact Or.inr (Or.inl h)
  · push_neg at hsh
    obtain ⟨hty, hamt⟩ := hsh
    have hcond : ¬ (a.transaction_type ≠ TransactionType.Chargeback ∨ a.amount ≠ none) := by
      push_neg
      exact ⟨hty, hamt⟩
    cases hget : TransactionMgr.get_transaction s.journal a.tx a.client with
    | none =>
      refine Or.inl ⟨?_, Or.inr (Or.inr rfl)⟩
      unfold TransactionsProcessor.apply_chargeback
      rw [if_neg hcond]
      simp only [hget]
    | some t =>
      have hcl : t.client = a.client := (get_transaction_spec hget).2
      refine Or.inr ⟨t, rfl, hty, hamt, ?_⟩
      cases htam : t.amount with
      | none =>
        refine Or.inl ⟨rfl, ?_⟩
        unfold TransactionsProcessor.apply_chargeback
        rw [if_neg hcond]
        simp only [hget, htam, hcl]
        simp
      | some x =>
        refine Or.inr ⟨x, rfl, ?_⟩
        unfold TransactionsProcessor.apply_chargeback
        rw [if_neg hcond]
        simp only [hget, htam, hcl]
        simp

/-- **C3**: no operation partially applies: every failing ledger operation
leaves the client map exactly as it was, and every Router dispatch branch that
returns `false` leaves the whole system state (all account fields and the
journal) exactly as it was before the call. -/
theorem C3_atomicity (m : ClientsStatesMgr) (id : Nat) (amt : Int)
    (s : Sys) (a : TransactionDetails) :
    ((ClientsStatesMgr.apply_deposit m id amt).2 = false →
       (ClientsStatesMgr.apply_deposit m id amt).1 = m) ∧
    ((ClientsStatesMgr.apply_withdrawal m id amt).2 = false →
       (ClientsStatesMgr.apply_withdrawal m id amt).1 = m) ∧
    ((ClientsStatesMgr.apply_dispute m id amt).2 = false →
       (ClientsStatesMgr.apply_dispute m id amt).1 = m) ∧
    ((ClientsStatesMgr.apply_resolve m id amt).2 = false →
       (ClientsStatesMgr.apply_resolve m id amt).1 = m) ∧
    ((ClientsStatesMgr.apply_chargeback m id amt).2 = false →
       (ClientsStatesMgr.apply_chargeback m id amt).1 = m) ∧
    (∀ s1 : Sys, TransactionsProcessor.applyAction s a = some (s1, false) → s1 = s) := by
  refine ⟨applyOp_fail_eq m (LedgerOp.deposit id amt),
          applyOp_fail_eq m (LedgerOp.withdrawal id amt),
          applyOp_fail_eq m (LedgerOp.dispute id amt),
          applyOp_fail_eq m (LedgerOp.resolve id amt),
          applyOp_fail_eq m (LedgerOp.chargeback id amt), ?_⟩
  intro s1 h
  cases hty : a.transaction_type with
  | Deposit =>
    simp only [TransactionsProcessor.applyAction, hty] at h
    injection h with h
    rcases proc_deposit_cases s a with ⟨heq, _⟩ | ⟨x, _, _, _, _, heq⟩ <;> rw [heq] at h
    · injection h with h1 h2
      exact h1.symm
    · injection h with h1 h2
      exact Bool.noConfusion h2
  | Withdrawal =>
    simp only [TransactionsProcessor.applyAction, hty] at h
    injection h with h
    rcases proc_withdrawal_cases s a with heq | ⟨x, _, _, _, _, _, heq⟩ <;> rw [heq] at h
    · injection h with h1 h2
      exact h1.symm
    · injection h with h1 h2
      exact Bool.noConfusion h2
  | Dispute =>
    simp only [TransactionsProcessor.applyAction, hty] at h
    rcases proc_dispute_cases s a with ⟨heq, _⟩ | ⟨t, _, _, _, ⟨_, heq⟩ | ⟨x, _, heq⟩⟩ <;>
        rw [heq] at h
    · injection h with h
      injection h with h1 h2
      exact h1.symm
    · cases h
    · injection h with h
      injection h with h1 h2
      rw [apply_dispute_fail_eq h2] at h1
      exact h1.symm
  | Resolve =>
    simp only [TransactionsProcessor.applyAction, hty] at h
    rcases proc_resolve_cases s a with ⟨heq, _⟩ | ⟨t, _, _, _, ⟨_, heq⟩ | ⟨x, _, heq⟩⟩ <;>
        rw [heq] at h
    · injection h with h
      injection h with h1 h2
      exact h1.symm
    · cases h
    · injection h with h
      injection h with h1 h2
      rw [apply_resolve_fail_eq h2] at h1
      exact h1.symm
  | Chargeback =>
    simp only [TransactionsProcessor.applyAction, hty] at h
    rcases proc_chargeback_cases s a with ⟨heq, _⟩ | ⟨t, _, _, _, ⟨_, heq⟩ | ⟨x, _, heq⟩⟩ <;>
        rw [heq] at h
    · injection h with h
      injection h with h1 h2
      exact h1.symm
    · cases h
    · injection h with h
      injection h with h1 h2
      rw [apply_chargeback_fail_eq h2] at h1
      exact h1.symm
  | Unknown =>
    simp only [TransactionsProcessor.applyAction, hty] at h
    injection h with h
    injection h with h1 h2
    exact h1.symm

/-- Witness for C3: a withdrawal from an unknown account fails and leaves the
empty ledger empty, and a dispute on an empty journal leaves the system
unchanged. -/
theorem C3_atomicity_witness :
    (ClientsStatesMgr.apply_withdrawal [] 1 5).1 = [] ∧
    (⟨[], []⟩ : Sys) = ⟨[], []⟩ :=
  ⟨(C3_atomicity [] 1 5 ⟨[], []⟩ ⟨TransactionType.Dispute, 1, 1, none⟩).2.1 (by decide),
   (C3_atomicity [] 1 5 ⟨[], []⟩ ⟨TransactionType.Dispute, 1, 1, none⟩).2.2.2.2.2
     ⟨[], []⟩ (by decide)⟩

theorem proc_deposit_dup (s : Sys) (a : TransactionDetails)
    (hex : TransactionMgr.transaction_exist s.journal a.tx = true) :
    TransactionsProcessor.apply_deposit s a = (s, false) := by
  by_cases hty : a.transaction_type = TransactionType.Deposit
  · unfold TransactionsProcessor.apply_deposit
    rw [if_neg (by simp [hty])]
    cases hamt : a.amount with
    | none => rfl
    | some x =>
      by_cases hx : x ≤ 0
      · simp [hx]
      · simp [hx, hex]
  · unfold TransactionsProcessor.apply_deposit
    rw [if_pos (by simp [hty])]

theorem proc_withdrawal_dup (s : Sys) (a : TransactionDetails)
    (hex : TransactionMgr.transaction_exist s.journal a.tx = true) :
    TransactionsProcessor.apply_withdrawal s a = (s, false) := by
  by_cases hty : a.transaction_type = TransactionType.Withdrawal
  · unfold TransactionsProcessor.apply_withdrawal
    rw [if_neg (by simp [hty])]
    cases hamt : a.amount with
    | none => rfl
    | some x => simp [hex]
  · unfold TransactionsProcessor.apply_withdrawal
    rw [if_pos (by simp [hty])]

theorem applyAction_journal_mono (s : Sys) (a : TransactionDetails) (s1 : Sys)
    (b : Bool) (h : TransactionsProcessor.applyAction s a = some (s1, b))
    (id : Nat) (r : TransactionDetails) (hrec : alookup s.journal id = some r) :
    alookup s1.journal id = some r := by
  cases hty : a.transaction_type with
  | Deposit =>
    simp only [TransactionsProcessor.applyAction, hty] at h
    injection h with h
    rcases proc_deposit_cases s a with ⟨heq, _⟩ | ⟨x, _, _, _, _, heq⟩ <;> rw [heq] at h <;>
      injection h with h1 h2 <;> rw [← h1]
    · exact hrec
    · exact alookup_append_left hrec _
  | Withdrawal =>
    simp only [TransactionsProcessor.applyAction, hty] at h
    injection h with h
    rcases proc_withdrawal_cases s a with heq | ⟨x, _, _, _, _, _, heq⟩ <;> rw [heq] at h <;>
      injection h with h1 h2 <;> rw [← h1]
    · exact hrec
    · exact alookup_append_left hrec _
  | Dispute =>
    simp only [TransactionsProcessor.applyAction, hty] at h
    rcases proc_dispute_cases s a with ⟨heq, _⟩ | ⟨t, _, _, _, ⟨_, heq⟩ | ⟨x, _, heq⟩⟩ <;>
        rw [heq] at h
    · injection h with h
      injection h with h1 h2
      rw [← h1]
      exact hrec
    · cases h
    · injection h with h
      injection h with h1 h2
      rw [← h1]
      exact hrec
  | Resolve =>
    simp only [TransactionsProcessor.applyAction, hty] at h
    rcases proc_resolve_cases s a with ⟨heq, _⟩ | ⟨t, _, _, _, ⟨_, heq⟩ | ⟨x, _, heq⟩⟩ <;>
        rw [heq] at h
    · injection h with h
      injection h with h1 h2
      rw [← h1]
      exact hrec
    · cases h
    · injection h with h
      injection h with h1 h2
      rw [← h1]
      exact hrec
  | Chargeback =>
    simp only [TransactionsProcessor.applyAction, hty] at h
    rcases proc_chargeback_cases s a with ⟨heq, _⟩ | ⟨t, _, _, _, ⟨_, heq⟩ | ⟨x, _, heq⟩⟩ <;>
        rw [heq] at h
    · injection h with h
      injection h with h1 h2
      rw [← h1]
      exact hrec
    · cases h
    · injection h with h
      injection h with h1 h2
      rw [← h1]
      exact hrec
  | Unknown =>
    simp only [TransactionsProcessor.applyAction, hty] at h
    injection h with h
    injection h with h1 h2
    rw [← h1]
    exact hrec

theorem stream_journal_mono (acts : List TransactionDetails) (id : Nat)
    (r : TransactionDetails) :
    ∀ s s' : Sys, TransactionsProcessor.apply_transaction_actions s acts = some s' →
      alookup s.journal id = some r → alookup s'.journal id = some r := by
  induction acts with
  | nil =>
    intro s s' h hrec
    injection h with h
    rw [← h]
    exact hrec
  | cons a rest ih =>
    intro s s' h hrec
    unfold TransactionsProcessor.apply_transaction_actions at h
    cases hact : TransactionsProcessor.applyAction s a with
    | none =>
      rw [hact] at h
      cases h
    | some p =>
      obtain ⟨s1, b⟩ := p
      rw [hact] at h
      exact ih s1 s' h (applyAction_journal_mono s a s1 b hact id r hrec)

/-- **C6**: once a journal record exists under a transaction id, it survives
any further processed stream unchanged, and any later deposit or withdrawal
reusing that id — even for a different account, and however often replayed —
is rejected with the system state unchanged. -/
theorem C6_duplicate_rejected (s : Sys) (id : Nat) (r : TransactionDetails)
    (acts : List TransactionDetails) (s' : Sys)
    (hrec : alookup s.journal id = some r)
    (hrun : TransactionsProcessor.apply_transaction_actions s acts = some s') :
    alookup s'.journal id = some r ∧
    ∀ a : TransactionDetails, a.tx = id →
      (a.transaction_type = TransactionType.Deposit →
         TransactionsProcessor.applyAction s' a = some (s', false)) ∧
      (a.transaction_type = TransactionType.Withdrawal →
         TransactionsProcessor.applyAction s' a = some (s', false)) := by
  have hrec' := stream_journal_mono acts id r s s' hrun hrec
  refine ⟨hrec', ?_⟩
  intro a htx
  have hex : TransactionMgr.transaction_exist s'.journal a.tx = true := by
    rw [htx]
    exact transaction_exist_eq_true hrec'
  constructor
  · intro hty
    simp only [TransactionsProcessor.applyAction, hty]
    rw [proc_deposit_dup s' a hex]
  · intro hty
    simp only [TransactionsProcessor.applyAction, hty]
    rw [proc_withdrawal_dup s' a hex]

/-- Witness for C6: with transaction 1 journaled for client 1, a later deposit
by a different client reusing id 1 is rejected and changes nothing. -/
theorem C6_duplicate_rejected_witness :
    TransactionsProcessor.applyAction
        ⟨[], [(1, ⟨TransactionType.Deposit, 1, 1, some 5⟩)]⟩
        ⟨TransactionType.Deposit, 2, 1, some 7⟩ =
      some (⟨[], [(1, ⟨TransactionType.Deposit, 1, 1, some 5⟩)]⟩, false) :=
  ((C6_duplicate_rejected ⟨[], [(1, ⟨TransactionType.Deposit, 1, 1, some 5⟩)]⟩ 1
      ⟨TransactionType.Deposit, 1, 1, some 5⟩ []
      ⟨[], [(1, ⟨TransactionType.Deposit, 1, 1, some 5⟩)]⟩ rfl rfl).2
    ⟨TransactionType.Deposit, 2, 1, some 7⟩ rfl).1 rfl

theorem applyAction_journal_shape (s : Sys) (a : TransactionDetails) (s1 : Sys)
    (b : Bool) (h : TransactionsProcessor.applyAction s a = some (s1, b)) :
    s1.journal = s.journal ∨
      ((∃ x, a.amount = some x) ∧ s1.journal = s.journal ++ [(a.tx, a)]) := by
  cases hty : a.transaction_type with
  | Deposit =>
    simp only [TransactionsProcessor.applyAction, hty] at h
    injection h with h
    rcases proc_deposit_cases s a with ⟨heq, _⟩ | ⟨x, hax, _, _, _, heq⟩ <;> rw [heq] at h <;>
      injection h with h1 h2 <;> rw [← h1]
    · exact Or.inl rfl
    · exact Or.inr ⟨⟨x, hax⟩, rfl⟩
  | Withdrawal =>
    simp only [TransactionsProcessor.applyAction, hty] at h
    injection h with h
    rcases proc_withdrawal_cases s a with heq | ⟨x, hax, _, _, _, _, heq⟩ <;> rw [heq] at h <;>
      injection h with h1 h2 <;> rw [← h1]
    · exact Or.inl rfl
    · exact Or.inr ⟨⟨x, hax⟩, rfl⟩
  | Dispute =>
    simp only [TransactionsProcessor.applyAction, hty] at h
    rcases proc_dispute_cases s a with ⟨heq, _⟩ | ⟨t, _, _, _, ⟨_, heq⟩ | ⟨x, _, heq⟩⟩ <;>
        rw [heq] at h
    · injection h with h
      injection h with h1 h2
      rw [← h1]
      exact Or.inl rfl
    · cases h
    · injection h with h
      injection h with h1 h2
      rw [← h1]
      exact Or.inl rfl
  | Resolve =>
    simp only [TransactionsProcessor.applyAction, hty] at h
    rcases proc_resolve_cases s a with ⟨heq, _⟩ | ⟨t, _, _, _, ⟨_, heq⟩ | ⟨x, _, heq⟩⟩ <;>
        rw [heq] at h
    · injection h with h
      injection h with h1 h2
      rw [← h1]
      exact Or.inl rfl
    · cases h
    · injection h with h
      injection h with h1 h2
      rw [← h1]
      exact Or.inl rfl
  | Chargeback =>
    simp only [TransactionsProcessor.applyAction, hty] at h
    rcases proc_chargeback_cases s a with ⟨heq, _⟩ | ⟨t, _, _, _, ⟨_, heq⟩ | ⟨x, _, heq⟩⟩ <;>
        rw [heq] at h
    · injection h with h
      injection h with h1 h2
      rw [← h1]
      exact Or.inl rfl
    · cases h
    · injection h with h
      injection h with h1 h2
      rw [← h1]
      exact Or.inl rfl
  | Unknown =>
    simp only [TransactionsProcessor.applyAction, hty] at h
    injection h with h
    injection h with h1 h2
    rw [← h1]
    exact Or.inl rfl

theorem applyAction_journal_fresh (s : Sys) (a : TransactionDetails) (s1 : Sys)
    (b : Bool) (h : TransactionsProcessor.applyAction s a = some (s1, b))
    (t : Nat) (hne : a.tx ≠ t) (hfresh : alookup s.journal t = none) :
    alookup s1.journal t = none := by
  rcases applyAction_journal_shape s a s1 b h with hj | ⟨_, hj⟩ <;> rw [hj]
  · exact hfresh
  · rw [alookup_append_right hfresh]
    simp [alookup, hne]

theorem stream_journal_fresh (acts : List TransactionDetails) (t : Nat)
    (hacts : ∀ a ∈ acts, a.tx ≠ t) :
    ∀ s s' : Sys, TransactionsProcessor.apply_transaction_actions s acts = some s' →
      alookup s.journal t = none → alookup s'.journal t = none := by
  induction acts with
  | nil =>
    intro s s' h hfresh
    injection h with h
    rw [← h]
    exact hfresh
  | cons a rest ih =>
    intro s s' h hfresh
    unfold TransactionsProcessor.apply_transaction_actions at h
    cases hact : TransactionsProcessor.applyAction s a with
    | none =>
      rw [hact] at h
      cases h
    | some p =>
      obtain ⟨s1, b⟩ := p
      rw [hact] at h
      exact ih (fun x hx => hacts x (List.mem_cons_of_mem _ hx)) s1 s' h
        (applyAction_journal_fresh s a s1 b hact t
          (hacts a (List.mem_cons_self _ _)) hfresh)

theorem proc_dispute_unjournaled (s : Sys) (a : TransactionDetails)
    (h : alookup s.journal a.tx = none) :
    TransactionsProcessor.apply_dispute s a = some (s, false) := by
  by_cases hsh : a.transaction_type ≠ TransactionType.Dispute ∨ a.amount ≠ none
  · unfold TransactionsProcessor.apply_dispute
    rw [if_pos hsh]
  · unfold TransactionsProcessor.apply_dispute
    rw [if_neg hsh]
    have hget : TransactionMgr.get_transaction s.journal a.tx a.client = none := by
      unfold TransactionMgr.get_transaction
      rw [h]
    simp only [hget]

theorem apply_transaction_actions_cons (s : Sys) (a : TransactionDetails)
    (l : List TransactionDetails) :
    TransactionsProcessor.apply_transaction_actions s (a :: l) =
      (match TransactionsProcessor.applyAction s a with
        | none => none
        | some (s1, _) => TransactionsProcessor.apply_transaction_actions s1 l) := rfl

theorem stream_append_some (l1 : List TransactionDetails) :
    ∀ s s1 : Sys, TransactionsProcessor.apply_transaction_actions s l1 = some s1 →
    ∀ l2, TransactionsProcessor.apply_transaction_actions s (l1 ++ l2) =
          TransactionsProcessor.apply_transaction_actions s1 l2 := by
  induction l1 with
  | nil =>
    intro s s1 h l2
    injection h with h
    rw [h]
    rfl
  | cons a rest ih =>
    intro s s1 h l2
    unfold TransactionsProcessor.apply_transaction_actions at h
    rw [List.cons_append, apply_transaction_actions_cons]
    cases hact : TransactionsProcessor.applyAction s a with
    | none =>
      rw [hact] at h
      cases h
    | some p =>
      obtain ⟨sm, b⟩ := p
      rw [hact] at h
      exact ih sm s1 h l2

theorem stream_append_none (l1 : List TransactionDetails) :
    ∀ s : Sys, TransactionsProcessor.apply_transaction_actions s l1 = none →
    ∀ l2, TransactionsProcessor.apply_transaction_actions s (l1 ++ l2) = none := by
  induction l1 with
  | nil =>
    intro s h l2
    cases h
  | cons a rest ih =>
    intro s h l2
    unfold TransactionsProcessor.apply_transaction_actions at h
    rw [List.cons_append, apply_transaction_actions_cons]
    cases hact : TransactionsProcessor.applyAction s a with
    | none => rfl
    | some p =>
      obtain ⟨sm, b⟩ := p
      rw [hact] at h
      exact ih sm h l2

/-- **C8**: a dispute whose referenced transaction id has not yet been
journaled — it is absent initially and no earlier action in the stream carries
that id — is rejected at the point it is processed, with no state change, and
the whole stream behaves exactly as if the dispute were not there, even if a
later record creates that id. -/
theorem C8_dispute_ordering (s0 : Sys) (pre post : List TransactionDetails)
    (d : TransactionDetails) (hd : d.transaction_type = TransactionType.Dispute)
    (hfresh : ∀ a ∈ pre, a.tx ≠ d.tx)
    (h0 : alookup s0.journal d.tx = none) :
    (∀ s1, TransactionsProcessor.apply_transaction_actions s0 pre = some s1 →
       TransactionsProcessor.applyAction s1 d = some (s1, false)) ∧
    TransactionsProcessor.apply_transaction_actions s0 (pre ++ d :: post) =
      TransactionsProcessor.apply_transaction_actions s0 (pre ++ post) := by
  have hreject : ∀ s1, TransactionsProcessor.apply_transaction_actions s0 pre = some s1 →
      TransactionsProcessor.applyAction s1 d = some (s1, false) := by
    intro s1 h1
    have hfr : alookup s1.journal d.tx = none :=
      stream_journal_fresh pre d.tx hfresh s0 s1 h1 h0
    simp only [TransactionsProcessor.applyAction, hd]
    exact proc_dispute_unjournaled s1 d hfr
  refine ⟨hreject, ?_⟩
  cases hpre : TransactionsProcessor.apply_transaction_actions s0 pre with
  | none =>
    rw [stream_append_none pre s0 hpre (d :: post), stream_append_none pre s0 hpre post]
  | some s1 =>
    rw [stream_append_some pre s0 s1 hpre (d :: post),
        stream_append_some pre s0 s1 hpre post,
        apply_transaction_actions_cons, hreject s1 hpre]

/-- Witness for C8: a dispute on transaction 1 arriving before the deposit
that creates transaction 1 is rejected on the empty system. -/
theorem C8_dispute_ordering_witness :
    TransactionsProcessor.applyAction ⟨[], []⟩ ⟨TransactionType.Dispute, 1, 1, none⟩ =
      some (⟨[], []⟩, false) :=
  (C8_dispute_ordering ⟨[], []⟩ [] [⟨TransactionType.Deposit, 1, 1, some 5⟩]
      ⟨TransactionType.Dispute, 1, 1, none⟩ rfl (by simp) rfl).1 ⟨[], []⟩ rfl

/-- **C9**: in the deposit and withdrawal handlers the journal insert
performed after the ledger mutation cannot fail: whenever control reaches
`insert_new_transaction`, the pre-checks (correct kind, amount present and
positive, id not yet journaled, and — for withdrawal — ledger success)
guarantee it returns success and the handler returns `true`, so the
un-rolled-back ledger mutation is never orphaned; every journal record of a
well-formed journal keeps a present amount across any action, and the amount
unwrap in the dispute/resolve/chargeback handlers cannot panic. -/
theorem C9_insert_infallible (s : Sys) (a : TransactionDetails) :
    (∀ x : Int, a.transaction_type = TransactionType.Deposit → a.amount = some x →
       0 < x → TransactionMgr.transaction_exist s.journal a.tx = false →
       TransactionMgr.insert_new_transaction s.journal a =
         (s.journal ++ [(a.tx, a)], true) ∧
       (TransactionsProcessor.apply_deposit s a).2 = true) ∧
    (∀ x : Int, a.transaction_type = TransactionType.Withdrawal → a.amount = some x →
       0 < x → TransactionMgr.transaction_exist s.journal a.tx = false →
       (ClientsStatesMgr.apply_withdrawal s.clients a.client x).2 = true →
       TransactionMgr.insert_new_transaction s.journal a =
         (s.journal ++ [(a.tx, a)], true) ∧
       (TransactionsProcessor.apply_withdrawal s a).2 = true) ∧
    (JournalWF s.journal → ∀ (s1 : Sys) (b : Bool),
       TransactionsProcessor.applyAction s a = some (s1, b) → JournalWF s1.journal) ∧
    (JournalWF s.journal → (TransactionsProcessor.applyAction s a).isSome = true) := by
  refine ⟨?_, ?_, ?_, ?_⟩
  · intro x hty hamt hx hex
    refine ⟨insert_new_transaction_spec s.journal a (Or.inl hty) x hamt (by omega)
      (transaction_exist_eq_false hex), ?_⟩
    rcases proc_deposit_cases s a with ⟨heq, hcond⟩ | ⟨y, hay, _, _, _, heq⟩
    · exfalso
      rcases hcond with h | h | ⟨y, hy, hy0⟩ | h
      · exact h hty
      · rw [hamt] at h
        cases h
      · rw [hamt] at hy
        injection hy with hy
        subst hy
        omega
      · rw [hex] at h
        cases h
    · rw [heq]
  · intro x hty hamt hx hex hled
    have hins := insert_new_transaction_spec s.journal a (Or.inr hty) x hamt (by omega)
      (transaction_exist_eq_false hex)
    refine ⟨hins, ?_⟩
    unfold TransactionsProcessor.apply_withdrawal
    rw [if_neg (by simp [hty])]
    simp only [hamt, hex, if_neg (show ¬ x ≤ 0 by omega), hled, hins]
    simp
  · intro hwf s1 b h
    rcases applyAction_journal_shape s a s1 b h with hj | ⟨⟨x, hax⟩, hj⟩ <;> rw [hj]
    · exact hwf
    · intro p hp
      rcases List.mem_append.mp hp with hm | hm
      · exact hwf p hm
      · simp at hm
        subst hm
        simp [hax]
  · intro hwf
    cases hty : a.transaction_type with
    | Deposit => simp [TransactionsProcessor.applyAction, hty]
    | Withdrawal => simp [TransactionsProcessor.applyAction, hty]
    | Unknown => simp [TransactionsProcessor.applyAction, hty]
    | Dispute =>
      simp only [TransactionsProcessor.applyAction, hty]
      rcases proc_dispute_cases s a with ⟨heq, _⟩ |
          ⟨t, hget, _, _, ⟨htam, heq⟩ | ⟨x, hx, heq⟩⟩ <;> rw [heq]
      · rfl
      · have hmem := hwf _ (alookup_mem (get_transaction_spec hget).1)
        simp [htam] at hmem
      · rfl
    | Resolve =>
      simp only [TransactionsProcessor.applyAction, hty]
      rcases proc_resolve_cases s a with ⟨heq, _⟩ |
          ⟨t, hget, _, _, ⟨htam, heq⟩ | ⟨x, hx, heq⟩⟩ <;> rw [heq]
      · rfl
      · have hmem := hwf _ (alookup_mem (get_transaction_spec hget).1)
        simp [htam] at hmem
      · rfl
    | Chargeback =>
      simp only [TransactionsProcessor.applyAction, hty]
      rcases proc_chargeback_cases s a with ⟨heq, _⟩ |
          ⟨t, hget, _, _, ⟨htam, heq⟩ | ⟨x, hx, heq⟩⟩ <;> rw [heq]
      · rfl
      · have hmem := hwf _ (alookup_mem (get_transaction_spec hget).1)
        simp [htam] at hmem
      · rfl

/-- Witness for C9: a fresh deposit of 5 under transaction 1 makes the journal
insert succeed and the deposit handler return true. -/
theorem C9_insert_infallible_witness :
    TransactionMgr.insert_new_transaction ([] : TransactionMgr)
        ⟨TransactionType.Deposit, 1, 1, some 5⟩ =
      ([(1, ⟨TransactionType.Deposit, 1, 1, some 5⟩)], true) ∧
    (TransactionsProcessor.apply_deposit ⟨[], []⟩
      ⟨TransactionType.Deposit, 1, 1, some 5⟩).2 = true :=
  (C9_insert_infallible ⟨[], []⟩ ⟨TransactionType.Deposit, 1, 1, some 5⟩).1 5 rfl rfl
    (by decide) rfl

/-- **C2 counterexample**: transaction 1 is journaled (for client 1, amount
2), the incoming dispute by client 2 carries no amount, and the ledger
dispute for the acting client 2 with the recorded amount would succeed — yet
the router rejects the dispute (because `get_transaction` filters by the
acting client id), contradicting the claimed "rejects iff amount present or
id not found in the Journal". -/
theorem C2_counterexample :
    (⟨TransactionType.Dispute, 2, 1, none⟩ : TransactionDetails).amount = none ∧
    TransactionMgr.transaction_exist
      ([(1, ⟨TransactionType.Deposit, 1, 1, some 2⟩)] : TransactionMgr) 1 = true ∧
    TransactionsProcessor.apply_dispute
      ⟨[(2, ⟨2, 10, 0, 10, false⟩)], [(1, ⟨TransactionType.Deposit, 1, 1, some 2⟩)]⟩
      ⟨TransactionType.Dispute, 2, 1, none⟩ =
      some (⟨[(2, ⟨2, 10, 0, 10, false⟩)],
             [(1, ⟨TransactionType.Deposit, 1, 1, some 2⟩)]⟩, false) ∧
    (ClientsStatesMgr.apply_dispute [(2, ⟨2, 10, 0, 10, false⟩)] 2 2).2 = true := by
  decide

/-- **C2 (amended)**: the dispute handler never panics on a well-formed
journal; whenever the action carries no amount and the client-filtered journal
lookup finds the record, the handler applies the ledger dispute for the acting
client with the recorded amount; and it rejects exactly when an amount is
present, or the client-filtered lookup finds nothing (id absent or recorded
client differs), or the ledger dispute fails. -/
theorem C2_dispute_routing (s : Sys) (a : TransactionDetails)
    (hk : a.transaction_type = TransactionType.Dispute)
    (hwf : JournalWF s.journal) :
    (TransactionsProcessor.apply_dispute s a).isSome = true ∧
    (∀ t : TransactionDetails, ∀ amt : Int, a.amount = none →
       TransactionMgr.get_transaction s.journal a.tx a.client = some t →
       t.amount = some amt →
       TransactionsProcessor.apply_dispute s a =
         some ({ clients := (ClientsStatesMgr.apply_dispute s.clients a.client amt).1,
                 journal := s.journal },
               (ClientsStatesMgr.apply_dispute s.clients a.client amt).2)) ∧
    (∀ r : Sys × Bool, TransactionsProcessor.apply_dispute s a = some r →
       (r.2 = false ↔ a.amount ≠ none ∨
          TransactionMgr.get_transaction s.journal a.tx a.client = none ∨
          (∃ t amt, TransactionMgr.get_transaction s.journal a.tx a.client = some t ∧
             t.amount = some amt ∧
             (ClientsStatesMgr.apply_dispute s.clients a.client amt).2 = false))) := by
  rcases proc_dispute_cases s a with ⟨heq, hcond⟩ |
      ⟨t, hget, hty, hamt, ⟨htam, heq⟩ | ⟨x, htam, heq⟩⟩
  · have hcond' : a.amount ≠ none ∨
        TransactionMgr.get_transaction s.journal a.tx a.client = none := by
      rcases hcond with h | h | h
      · exact absurd hk h
      · exact Or.inl h
      · exact Or.inr h
    refine ⟨by rw [heq]; rfl, ?_, ?_⟩
    · intro t amt hamt hget htam
      exfalso
      rcases hcond' with h | h
      · exact h hamt
      · rw [h] at hget
        cases hget
    · intro r hr
      rw [heq] at hr
      injection hr with hr
      rw [← hr]
      constructor
      · intro _
        rcases hcond' with h | h
        · exact Or.inl h
        · exact Or.inr (Or.inl h)
      · intro _
        rfl
  · exfalso
    have hmem := hwf _ (alookup_mem (get_transaction_spec hget).1)
    simp [htam] at hmem
  · refine ⟨by rw [heq]; rfl, ?_, ?_⟩
    · intro t' amt hamt' hget' htam'
      rw [hget] at hget'
      injection hget' with hget'
      subst hget'
      rw [htam] at htam'
      injection htam' with htam'
      subst htam'
      exact heq
    · intro r hr
      rw [heq] at hr
      injection hr with hr
      rw [← hr]
      constructor
      · intro hfalse
        exact Or.inr (Or.inr ⟨t, x, hget, htam, hfalse⟩)
      · intro hcond
        rcases hcond with h | h | ⟨t', amt', hget', htam', hfail⟩
        · exact absurd hamt h
        · rw [hget] at h
          cases h
        · rw [hget] at hget'
          injection hget' with hget'
          subst hget'
          rw [htam] at htam'
          injection htam' with htam'
          subst htam'
          exact hfail

/-- Witness for the amended C2: a dispute by client 1 on its own journaled
transaction 1 (amount 2) applies the ledger dispute with the recorded
amount. -/
theorem C2_dispute_routing_witness :
    TransactionsProcessor.apply_dispute
        ⟨[(1, ⟨1, 5, 0, 5, false⟩)], [(1, ⟨TransactionType.Deposit, 1, 1, some 2⟩)]⟩
        ⟨TransactionType.Dispute, 1, 1, none⟩ =
      some ({ clients := (ClientsStatesMgr.apply_dispute [(1, ⟨1, 5, 0, 5, false⟩)] 1 2).1,
              journal := [(1, ⟨TransactionType.Deposit, 1, 1, some 2⟩)] },
            (ClientsStatesMgr.apply_dispute [(1, ⟨1, 5, 0, 5, false⟩)] 1 2).2) :=
  (C2_dispute_routing
      ⟨[(1, ⟨1, 5, 0, 5, false⟩)], [(1, ⟨TransactionType.Deposit, 1, 1, some 2⟩)]⟩
      ⟨TransactionType.Dispute, 1, 1, none⟩ rfl (by decide)).2.1
    ⟨TransactionType.Deposit, 1, 1, some 2⟩ 2 rfl rfl rfl
